import Mathlib

/-!
Shallow embedding of `analyze_dependencies.py` (c-sharp-dependency-monitor):
symbol extraction, reference scanning, dependency-graph construction,
two-phase circular-dependency detection, and DOT rendering, together with
theorems checking the specification's claims against this embedding.

Python dictionaries are modelled as insertion-ordered association lists,
Python sets as insertion-ordered duplicate-free lists, and Python strings
as Lean `String`s.  Recursion that in Python runs on the call stack is
modelled with an explicit fuel parameter chosen large enough that it is
never exhausted on the inputs the source can produce.
-/

set_option autoImplicit false

namespace DepMon

/-! ## Python string helpers -/

/-- Characters Python's `str.strip()` / `\s` treat as whitespace. -/
def isPySpace (c : Char) : Bool :=
  c = ' ' ∨ c = '\t' ∨ c = '\n' ∨ c = '\r' ∨ c = '\x0b' ∨ c = '\x0c'

/-- Characters matched by the regex class `\w`. -/
def isWordChar (c : Char) : Bool :=
  c.isAlphanum ∨ c = '_'

/-- Characters matched by the regex class `[\w.]`. -/
def isWordDotChar (c : Char) : Bool :=
  isWordChar c ∨ c = '.'

/-- Python `str.strip()` on a list of characters. -/
def pyStripL (s : List Char) : List Char :=
  ((s.dropWhile isPySpace).reverse.dropWhile isPySpace).reverse

/-- Python `str.strip()`. -/
def pyStrip (s : String) : String :=
  String.mk (pyStripL s.data)

/-- Python `s.count(c)` for a single character. -/
def countChar (s : String) (c : Char) : Nat :=
  s.data.countP (· = c)

/-- Python `s.startswith((p1, ..., pk))`. -/
def startswithAny (s : String) (ps : List String) : Bool :=
  ps.any (fun p => p.data.isPrefixOf s.data)

/-- Python `s.endswith((p1, ..., pk))`. -/
def endswithAny (s : String) (ps : List String) : Bool :=
  ps.any (fun p => p.data.reverse.isPrefixOf s.data.reverse)

/-- Python `s.startswith(p)`. -/
def pyStartsWith (s p : String) : Bool :=
  p.data.isPrefixOf s.data

/-- Python `s.split('.')[-1] if '.' in s else s`: in both cases, the
suffix after the last dot. -/
def pySplitDotLast (s : String) : String :=
  String.mk ((s.data.reverse.takeWhile (fun c => c ≠ '.')).reverse)

/-- The scan of Python `str.replace`, with structural fuel (each step
consumes at least one character, so `fuel = s.length` never runs out). -/
def pyReplaceGo (pat rep : List Char) : Nat → List Char → List Char
  | 0, s => s
  | fuel + 1, s =>
    match s with
    | [] => []
    | c :: rest =>
      if pat ≠ [] ∧ pat.isPrefixOf (c :: rest) then
        rep ++ pyReplaceGo pat rep fuel ((c :: rest).drop pat.length)
      else
        c :: pyReplaceGo pat rep fuel rest

/-- Python `s.replace(pat, rep)` on character lists (`pat` nonempty at all
call sites). -/
def pyReplaceL (pat rep s : List Char) : List Char :=
  pyReplaceGo pat rep s.length s

/-- Python `s.replace(pat, rep)`. -/
def pyReplace (s pat rep : String) : String :=
  String.mk (pyReplaceL pat.data rep.data s.data)

/-! ## Ordered maps and sets (Python `dict` / `set` as ordered lists) -/

/-- Lookup in an association list (Python `d[k]` / `d.get(k)`). -/
def lookupAssoc {V : Type} (l : List (String × V)) (k : String) : Option V :=
  (l.find? (fun p => p.1 = k)).map (·.2)

/-- Python `d[k] = f(d.get(k, dflt))`: update in place, or append a new
entry, preserving dict insertion order. -/
def updAssoc {V : Type} (k : String) (dflt : V) (f : V → V) :
    List (String × V) → List (String × V)
  | [] => [(k, f dflt)]
  | (k', v) :: rest =>
    if k' = k then (k', f v) :: rest else (k', v) :: updAssoc k dflt f rest

/-- Python `d[k] = v`. -/
def setAssoc {V : Type} (k : String) (v : V) (l : List (String × V)) :
    List (String × V) :=
  updAssoc k v (fun _ => v) l

/-- Python `set.add` on an insertion-ordered duplicate-free list. -/
def insertStr (l : List String) (x : String) : List String :=
  if x ∈ l then l else l ++ [x]

/-- Python `set.add` for pairs. -/
def insertPair (l : List (String × String)) (e : String × String) :
    List (String × String) :=
  if e ∈ l then l else l ++ [e]

/-- Python `set.remove`. -/
def removeStr (l : List String) (x : String) : List String :=
  l.erase x

/-- Python `list(set(xs))`, modelled as keeping the first occurrence of
each element in order. -/
def dedupFirst : List String → List String
  | [] => []
  | x :: rest => x :: (dedupFirst rest).filter (· ≠ x)

/-! ## Cycle detection (`find_circular_dependencies`) -/

/-- The input of `find_circular_dependencies`: a Python dict mapping a node
to its list of dependency targets. -/
def Graph : Type := List (String × List String)

/-- Python `dependencies.get(node, [])`. -/
def getDeps (g : Graph) (node : String) : List String :=
  (lookupAssoc g node).getD []

/-- The mutable state of `find_circular_dependencies`: the sets
`circular_deps`, `circular_nodes`, `visited` and `rec_stack`. -/
structure DfsState where
  circularDeps : List (String × String)
  circularNodes : List String
  visited : List String
  recStack : List String

/-- Python `path.index(node)` returning `none` instead of raising
`ValueError`. -/
def pyIndex : List String → String → Option Nat
  | [], _ => none
  | y :: rest, x => if y = x then some 0 else (pyIndex rest x).map (· + 1)

/-- Consecutive pairs of a list: the edges traversed along a path. -/
def pathPairs : List String → List (String × String)
  | [] => []
  | [_] => []
  | a :: b :: rest => (a, b) :: pathPairs (b :: rest)

/-- The `for i in range(len(cycle) - 1)` loop of the DFS: record every
consecutive edge of `cycle` and both of its endpoints. -/
def addCycle (s : DfsState) (cycle : List String) : DfsState :=
  (pathPairs cycle).foldl
    (fun s e =>
      { s with
        circularDeps := insertPair s.circularDeps e
        circularNodes := insertStr (insertStr s.circularNodes e.1) e.2 })
    s

/-- The tail of the recursive case of `dfs`: on a found cycle return
`True` at once, otherwise take the node back off the recursion stack and
return `False`. -/
def dfsWrap (node : String) (r : Bool × DfsState) : Bool × DfsState :=
  if r.1 then (true, r.2)
  else (false, { r.2 with recStack := removeStr r.2.recStack node })

/-- The inner `dfs(node, path)` of `find_circular_dependencies`, with fuel
standing in for the Python call stack.  Returns the Python return value
paired with the state after the call. -/
def dfs (g : Graph) : Nat → String → List String → DfsState → Bool × DfsState
  | 0, _, _, s => (false, s)
  | fuel + 1, node, path, s =>
    if s.recStack.contains node then
      match pyIndex path node with
      | some k => (true, addCycle s (path.drop k ++ [node]))
      | none =>
        match path.getLast? with
        | some last =>
          (true,
            { s with
              circularDeps := insertPair s.circularDeps (last, node)
              circularNodes := insertStr (insertStr s.circularNodes last) node })
        | none => (true, s)
    else if s.visited.contains node then (false, s)
    else
      dfsWrap node
        ((getDeps g node).foldl
          (fun acc n => if acc.1 then acc else dfs g fuel n (path ++ [node]) acc.2)
          (false,
            { s with visited := insertStr s.visited node
                     recStack := insertStr s.recStack node }))

/-- Fuel bound for the recursions of `find_circular_dependencies`: the DFS
descends only through dict keys and visits each at most once. -/
def fcdFuel (g : Graph) : Nat := g.length + 1

/-- The inner `can_reach_back(current, target)` of `is_edge_truly_circular`,
threading the per-check `visited_for_path` set. -/
def canReachBack (g : Graph) : Nat → String → String → List String → Bool × List String
  | 0, _, _, vis => (false, vis)
  | fuel + 1, current, target, vis =>
    if current = target then (true, vis)
    else if vis.contains current then (false, vis)
    else
      (getDeps g current).foldl
        (fun acc n => if acc.1 then acc else canReachBack g fuel n target acc.2)
        (false, insertStr vis current)

/-- Python `is_edge_truly_circular(from_node, to_node)`: a fresh visited
set, then search from `to_node` for `from_node`. -/
def isEdgeTrulyCircular (g : Graph) (fromNode toNode : String) : Bool :=
  (canReachBack g (fcdFuel g) toNode fromNode []).1

/-- Python `find_circular_dependencies(dependencies)`: phase 1 collects
candidate edges by DFS from every unvisited key, phase 2 keeps only the
candidates whose head reaches back to their tail. -/
def find_circular_dependencies (g : Graph) : List (String × String) :=
  let s := g.foldl
    (fun st kv =>
      if st.visited.contains kv.1 then st else (dfs g (fcdFuel g) kv.1 [] st).2)
    ⟨[], [], [], []⟩
  s.circularDeps.filter (fun e => isEdgeTrulyCircular g e.1 e.2)

/-- Reachability along graph edges: the reflexive–transitive closure of
"`b` is in `a`'s dependency list". -/
inductive Reaches (g : Graph) : String → String → Prop
  | refl (a : String) : Reaches g a a
  | step {a b c : String} : b ∈ getDeps g a → Reaches g b c → Reaches g a c

/-! ## Regex core

The source uses `re` with a fixed family of patterns.  `RE` covers exactly
the constructs those patterns use; a pattern is a `List RE` matched
sequentially.  Matching is nondeterministic with greedy (longest-first)
ordering, which reproduces Python's backtracking semantics for these
patterns. -/

inductive RE where
  /-- a literal string (`re.escape`d names and plain text) -/
  | lit (s : String)
  /-- `\s*` -/
  | ws0
  /-- `\s+` -/
  | ws1
  /-- `\w*` -/
  | word0
  /-- `\w+` -/
  | word1
  /-- `[\w.]+` -/
  | wordDot1
  /-- `.*` (no newline) -/
  | dotStar
  /-- a character class `[..]` (`neg = true` for `[^..]`) -/
  | one (cs : List Char) (neg : Bool)
  /-- a starred character class `[..]*` / `[^..]*` -/
  | many0 (cs : List Char) (neg : Bool)
  /-- alternation `(?:a|b)` -/
  | alt2 (a b : RE)
  /-- sequencing inside an alternation or group -/
  | seq (a b : RE)
  /-- the empty pattern (used for `(?:...)?`) -/
  | eps
  /-- a capturing group `(...)` -/
  | grp (a : RE)
  /-- `\b` -/
  | bWord
  /-- `(?!\w)` -/
  | notWordAhead

/-- `(?:a)?` -/
def RE.opt (a : RE) : RE := RE.alt2 a RE.eps

/-- Size measure for termination of the matcher. -/
def RE.size : RE → Nat
  | .alt2 a b => 1 + a.size + b.size
  | .seq a b => 1 + a.size + b.size
  | .grp a => 1 + a.size
  | _ => 1

/-- Size of a sequential pattern. -/
def sizeL (ps : List RE) : Nat := (ps.map RE.size).sum

theorem RE.size_pos (r : RE) : 0 < r.size := by
  cases r <;> simp [RE.size]

/-- Greedy split lengths for a starred predicate: the lengths of the
prefixes of `input` consisting of `p`-characters, longest first,
optionally including `0`. -/
def starLens (p : Char → Bool) (withZero : Bool) (input : List Char) : List Nat :=
  let n := (input.takeWhile p).length
  (List.range n).map (fun d => n - d) ++ (if withZero then [0] else [])

/-- Character-class membership test for `one` / `many0`. -/
def clsTest (cs : List Char) (neg : Bool) (c : Char) : Bool :=
  (cs.contains c) != neg

/-- The matcher: all ways the sequential pattern can match a prefix of
`input`, each result giving the remaining input, the last consumed
character (for `\b`), and the captured groups, in Python's backtracking
preference order.  The structural fuel stands for the recursion on the
pattern size: every recursive call has a strictly smaller `sizeL`, so
`fuel = sizeL ps + 1` never runs out. -/
def reM : Nat → List RE → List Char → Option Char →
    List (List Char × Option Char × List String)
  | 0, _, _, _ => []
  | _ + 1, [], input, prev => [(input, prev, [])]
  | fuel + 1, RE.lit s :: rest, input, prev =>
    if s.data.isPrefixOf input then
      reM fuel rest (input.drop s.data.length)
        (match s.data.getLast? with | some c => some c | none => prev)
    else []
  | fuel + 1, RE.ws0 :: rest, input, prev =>
    (starLens isPySpace true input).flatMap
      (fun k => reM fuel rest (input.drop k) (if k = 0 then prev else input[k-1]?))
  | fuel + 1, RE.ws1 :: rest, input, _ =>
    (starLens isPySpace false input).flatMap
      (fun k => reM fuel rest (input.drop k) (input[k-1]?))
  | fuel + 1, RE.word0 :: rest, input, prev =>
    (starLens isWordChar true input).flatMap
      (fun k => reM fuel rest (input.drop k) (if k = 0 then prev else input[k-1]?))
  | fuel + 1, RE.word1 :: rest, input, _ =>
    (starLens isWordChar false input).flatMap
      (fun k => reM fuel rest (input.drop k) (input[k-1]?))
  | fuel + 1, RE.wordDot1 :: rest, input, _ =>
    (starLens isWordDotChar false input).flatMap
      (fun k => reM fuel rest (input.drop k) (input[k-1]?))
  | fuel + 1, RE.dotStar :: rest, input, prev =>
    (starLens (· ≠ '\n') true input).flatMap
      (fun k => reM fuel rest (input.drop k) (if k = 0 then prev else input[k-1]?))
  | fuel + 1, RE.one cs neg :: rest, input, _ =>
    match input with
    | [] => []
    | c :: tl => if clsTest cs neg c then reM fuel rest tl (some c) else []
  | fuel + 1, RE.many0 cs neg :: rest, input, prev =>
    (starLens (clsTest cs neg) true input).flatMap
      (fun k => reM fuel rest (input.drop k) (if k = 0 then prev else input[k-1]?))
  | fuel + 1, RE.alt2 a b :: rest, input, prev =>
    reM fuel (a :: rest) input prev ++ reM fuel (b :: rest) input prev
  | fuel + 1, RE.seq a b :: rest, input, prev => reM fuel (a :: b :: rest) input prev
  | fuel + 1, RE.eps :: rest, input, prev => reM fuel rest input prev
  | fuel + 1, RE.grp a :: rest, input, prev =>
    (reM fuel [a] input prev).flatMap
      (fun r =>
        (reM fuel rest r.1 r.2.1).map
          (fun r2 =>
            (r2.1, r2.2.1,
             String.mk (input.take (input.length - r.1.length)) :: (r.2.2 ++ r2.2.2))))
  | fuel + 1, RE.bWord :: rest, input, prev =>
    if (match prev with | some c => isWordChar c | none => false) !=
        (match input with | c :: _ => isWordChar c | [] => false) then
      reM fuel rest input prev
    else []
  | fuel + 1, RE.notWordAhead :: rest, input, prev =>
    match input with
    | c :: _ => if isWordChar c then [] else reM fuel rest input prev
    | [] => reM fuel rest input prev

/-- First (preferred) match of the pattern at the current position:
consumed length and captures. -/
def reMAt (p : List RE) (input : List Char) (prev : Option Char) :
    Option (Nat × List String) :=
  match reM (sizeL p + 1) p input prev with
  | [] => none
  | r :: _ => some (input.length - r.1.length, r.2.2)

/-- `re.search`: try every start position, leftmost first. -/
def reSearchFrom (p : List RE) : List Char → Option Char → Option (List String)
  | [], prev => (reMAt p [] prev).map (·.2)
  | c :: rest, prev =>
    match reMAt p (c :: rest) prev with
    | some r => some r.2
    | none => reSearchFrom p rest (some c)

/-- `re.search(pattern, s)`. -/
def reSearch (p : List RE) (s : String) : Option (List String) :=
  reSearchFrom p s.data none

/-- `re.search(pattern, s) is not None`. -/
def reSearchB (p : List RE) (s : String) : Bool :=
  (reSearch p s).isSome

/-- `re.match(pattern, s)` (anchored at the start). -/
def reMatchStart (p : List RE) (s : String) : Option (List String) :=
  (reMAt p s.data none).map (·.2)

/-- Is this position the start of the string or just after a newline? -/
def atLineStart (prev : Option Char) : Bool :=
  match prev with | none => true | some c => c = '\n'

/-- `re.search` with `re.MULTILINE` and a `^`-anchored pattern: only
line-start positions are tried. -/
def reSearchMLFrom (p : List RE) : List Char → Option Char → Option (List String)
  | [], prev =>
    if atLineStart prev then (reMAt p [] prev).map (·.2) else none
  | c :: rest, prev =>
    if atLineStart prev then
      match reMAt p (c :: rest) prev with
      | some r => some r.2
      | none => reSearchMLFrom p rest (some c)
    else reSearchMLFrom p rest (some c)

/-- `re.search(pattern, s, re.MULTILINE)` for a `^`-anchored pattern. -/
def reSearchML (p : List RE) (s : String) : Option (List String) :=
  reSearchMLFrom p s.data none

/-- The scan of `re.findall`, with structural fuel (each step advances by
at least one character, so `fuel = input.length` never runs out). -/
def reFindAllGo (p : List RE) (anchored : Bool) :
    Nat → List Char → Option Char → List (List String)
  | 0, _, _ => []
  | fuel + 1, input, prev =>
    match input with
    | [] => []
    | c :: rest =>
      match (if !anchored || atLineStart prev then reMAt p (c :: rest) prev else none) with
      | some (k, caps) =>
        caps :: reFindAllGo p anchored fuel ((c :: rest).drop (max k 1))
          ((c :: rest)[max k 1 - 1]?)
      | none => reFindAllGo p anchored fuel rest (some c)

/-- `re.findall`: non-overlapping matches left to right, collecting the
captures; `anchored = true` restricts to `^`-anchored (line-start)
positions as with `re.MULTILINE`. -/
def reFindAll (p : List RE) (anchored : Bool) (s : String) : List (List String) :=
  reFindAllGo p anchored s.data.length s.data none

/-- `match.group(1)`. -/
def firstCap (caps : List String) : String := caps.headD ""

/-- Right-nested sequencing of a pattern list (for use inside `alt2`/`grp`). -/
def seqRE : List RE → RE
  | [] => RE.eps
  | [x] => x
  | x :: xs => RE.seq x (seqRE xs)

/-- Right-nested alternation `(?:a|b|c)`. -/
def altsRE : List RE → RE
  | [] => RE.eps
  | [x] => x
  | x :: xs => RE.alt2 x (altsRE xs)

/-- Alternation of literal strings. -/
def strAlt (ss : List String) : RE :=
  altsRE (ss.map RE.lit)

/-! ## Source units and shared extraction -/

/-- A source unit: its path relative to the scripts root and its lines.
The file's text is the newline-join of the lines, matching
`content.split('\n') == lines`. -/
structure CSFile where
  path : String
  lines : List String

/-- The full text of a unit, as read by `f.read()`. -/
def fileContent (f : CSFile) : String :=
  String.intercalate "\n" f.lines

/-- The import roots excluded as framework namespaces:
`('System', 'Unity', 'UnityEngine')`. -/
def frameworkRoots : List String := ["System", "Unity", "UnityEngine"]

/-- `^namespace\s+([\w.]+)` (searched with `re.MULTILINE`). -/
def nsDeclPat : List RE := [RE.lit "namespace", RE.ws1, RE.grp RE.wordDot1]

/-- `re.search(r'^namespace\s+([\w.]+)', content, re.MULTILINE)`. -/
def extractNamespace (content : String) : Option String :=
  (reSearchML nsDeclPat content).map firstCap

/-- `^\s*using\s+([\w.]+);` (matched against the stripped line). -/
def usingLinePat : List RE :=
  [RE.ws0, RE.lit "using", RE.ws1, RE.grp RE.wordDot1, RE.lit ";"]

/-- `re.match(r'^\s*using\s+([\w.]+);', line.strip())`. -/
def matchUsing (line : String) : Option String :=
  (reMatchStart usingLinePat (pyStrip line)).map firstCap

/-- `^using\s+([\w.]+);` (for `re.findall` with `re.MULTILINE`). -/
def usingFindPat : List RE :=
  [RE.lit "using", RE.ws1, RE.grp RE.wordDot1, RE.lit ";"]

/-- `re.findall(r'^using\s+([\w.]+);', content, re.MULTILINE)`. -/
def findUsings (content : String) : List String :=
  (reFindAll usingFindPat true content).map firstCap

/-! ## Namespace-level analysis (`analyze_namespace_dependencies`) -/

/-- `namespace_usings[namespace][target_namespace].append(loc)` on the
nested `defaultdict`. -/
def addUsing (acc : List (String × List (String × List String)))
    (ns target loc : String) : List (String × List (String × List String)) :=
  updAssoc ns [] (updAssoc target [] (fun ls => ls ++ [loc])) acc

/-- Processing of one `(line_num, line)` pair in the first pass of
`analyze_namespace_dependencies`: record the using statement when its
target is neither a framework namespace nor the unit's own namespace. -/
def nsLineStep (ns fpath : String)
    (acc : List (String × List (String × List String))) (p : Nat × String) :
    List (String × List (String × List String)) :=
  match matchUsing p.2 with
  | some target =>
    if ¬ startswithAny target frameworkRoots ∧ target ≠ ns then
      addUsing acc ns target (fpath ++ ":" ++ toString p.1)
    else acc
  | none => acc

/-- Processing of one unit in the first pass of
`analyze_namespace_dependencies`: skip the unit when it has no namespace
declaration, otherwise record every non-framework, non-self using
statement with its `file:line` location. -/
def nsFileStep (acc : List (String × List (String × List String))) (f : CSFile) :
    List (String × List (String × List String)) :=
  match extractNamespace (fileContent f) with
  | none => acc
  | some ns => (f.lines.enumFrom 1).foldl (nsLineStep ns f.path) acc

/-- Python `analyze_namespace_dependencies()`, with the enumerated source
units as input; returns `(dependencies, dependency_details)`. -/
def analyze_namespace_dependencies (files : List CSFile) :
    List (String × List String) × List (String × List (String × List String)) :=
  let nsUsings := files.foldl nsFileStep []
  let entries := nsUsings.filter (fun p => ¬ p.2.isEmpty)
  (entries.map (fun p => (p.1, p.2.map (·.1))), entries)

/-! ## Class-level analysis (`analyze_class_dependencies`) -/

/-- `(?:public|internal|private)` as used by the declaration patterns. -/
def accessAltPIP : RE := strAlt ["public", "internal", "private"]

/-- `(?:public|private|protected|internal)` as used by the usage patterns. -/
def accessAltPPPI : RE := strAlt ["public", "private", "protected", "internal"]

/-- `(?:word\s+)?` -/
def modOpt (s : String) : RE := RE.opt (RE.seq (RE.lit s) RE.ws1)

/-- The four `class_patterns` of the first pass, in source order. -/
def class_patterns : List (List RE) :=
  [[RE.opt accessAltPIP, RE.ws0, modOpt "static", modOpt "partial", modOpt "abstract",
    RE.lit "class", RE.ws1, RE.grp RE.word1],
   [RE.opt accessAltPIP, RE.ws0, modOpt "static", modOpt "partial", modOpt "sealed",
    RE.lit "class", RE.ws1, RE.grp RE.word1],
   [RE.opt accessAltPIP, RE.ws0, RE.lit "struct", RE.ws1, RE.grp RE.word1],
   [RE.opt accessAltPIP, RE.ws0, modOpt "static", modOpt "partial", modOpt "abstract",
    modOpt "sealed", RE.lit "class", RE.ws1, RE.grp RE.word1]]

/-- First `class_patterns` entry that matches the stripped line, returning
its `group(1)`. -/
def matchClassDecl (stripped : String) : Option String :=
  (class_patterns.findSome? (fun pat => reSearch pat stripped)).map firstCap

/-- `\b(?:class|struct)\s+\w+`: an enclosing declaration candidate. -/
def nestedDeclPat : List RE :=
  [RE.bWord, strAlt ["class", "struct"], RE.ws1, RE.word1]

/-- Python `lines[j]` (the index is always in range at call sites). -/
def pyGetLine (lines : List String) (j : Nat) : String :=
  lines.getD j ""

/-- The backward scan `for j in range(i-1, max(0, i-50), -1)`: the indexes
`i-1, i-2, ..., max(0, i-50)+1` (the stop bound is exclusive). -/
def jRange (i : Nat) : List Nat :=
  (List.range ((i - 1) - max 0 (i - 50))).map (fun d => (i - 1) - d)

/-- The backward search for the nearest enclosing class/struct declaration:
skip blank and `//` lines, stop at the first declaration found. -/
def findEnclosingDecl (lines : List String) : List Nat → Option Nat
  | [] => none
  | j :: js =>
    let prev := pyStrip (pyGetLine lines j)
    if prev = "" ∨ pyStartsWith prev "//" then findEnclosingDecl lines js
    else if reSearchB nestedDeclPat prev then some j
    else findEnclosingDecl lines js

/-- `sum over k in [j, i) of lines[k].count('{') - lines[k].count('}')`. -/
def braceBalance (lines : List String) (j i : Nat) : Int :=
  ((List.range (i - j)).map
    (fun d =>
      (countChar (pyGetLine lines (j + d)) '\x7b' : Int) -
        (countChar (pyGetLine lines (j + d)) '\x7d' : Int))).sum

/-- The nesting heuristic: the declaration at line `i` is nested iff the
nearest enclosing declaration in the lookback window still has a positive
brace balance up to line `i`. -/
def isNested (lines : List String) (i : Nat) : Bool :=
  match findEnclosingDecl lines (jRange i) with
  | some j => decide (0 < braceBalance lines j i)
  | none => false

/-- First pass of `analyze_class_dependencies` over one unit: record every
non-nested class/struct declaration in `all_classes` under
`(namespace, namespace.name)`, defaulting the namespace to `"Global"`. -/
def classFirstPassFile (acc : List (String × String × String)) (f : CSFile) :
    List (String × String × String) :=
  let ns := (extractNamespace (fileContent f)).getD "Global"
  f.lines.enum.foldl
    (fun acc p =>
      let stripped := pyStrip p.2
      if stripped = "" ∨ pyStartsWith stripped "//" then acc
      else
        match matchClassDecl stripped with
        | some cname =>
          if isNested f.lines p.1 then acc
          else setAssoc cname (ns, ns ++ "." ++ cname) acc
        | none => acc)
    acc

/-- Python `all_classes` after the first pass. -/
def collectAllClasses (files : List CSFile) : List (String × String × String) :=
  files.foldl classFirstPassFile []

/-- `(?:class|struct)\s+{name}`: is the class defined in this file? -/
def classInFilePat (name : String) : List RE :=
  [strAlt ["class", "struct"], RE.ws1, RE.lit name]

/-- `current_file_classes`: the known classes of this unit's namespace that
are also declared in this unit's text. -/
def currentFileClasses (allClasses : List (String × String × String))
    (ns : String) (content : String) : List (String × String) :=
  allClasses.filterMap
    (fun e =>
      if e.2.1 = ns ∧ reSearchB (classInFilePat e.1) content then some (e.1, e.2.2)
      else none)

/-- `(?:class|struct)\s+{name}(?:\s*:|<|\s+|\s*{)`: the start line of the
class scope. -/
def classScopePat (name : String) : List RE :=
  [strAlt ["class", "struct"], RE.ws1, RE.lit name,
   altsRE [seqRE [RE.ws0, RE.lit ":"], RE.lit "<", RE.ws1, seqRE [RE.ws0, RE.lit "\x7b"]]]

/-- The brace-tracking loop of `extract_class_scope`, accumulating
`(1-based line number, line)` pairs until the brace count returns to zero. -/
def scopeGo : List String → Nat → Int → Bool → List (Nat × String) → List (Nat × String)
  | [], _, _, _, acc => acc.reverse
  | line :: rest, i, braceCount, inClass, acc =>
    let opens := countChar line '\x7b'
    let braceCount1 := if 0 < opens then braceCount + (opens : Int) else braceCount
    let inClass1 := inClass || decide (0 < opens)
    let acc1 := if inClass1 then (i + 1, line) :: acc else acc
    let closes := countChar line '\x7d'
    let braceCount2 := if 0 < closes then braceCount1 - (closes : Int) else braceCount1
    if inClass1 ∧ braceCount2 ≤ 0 then acc1.reverse
    else scopeGo rest (i + 1) braceCount2 inClass1 acc1

/-- Python `extract_class_scope(lines, class_name)`. -/
def extract_class_scope (lines : List String) (className : String) :
    List (Nat × String) :=
  match lines.findIdx? (fun line => reSearchB (classScopePat className) line) with
  | none => []
  | some start => scopeGo (lines.drop start) start 0 false []

/-- The seven `legitimate_patterns` of `has_legitimate_class_usage`, in
source order. -/
def legitimatePatterns (n : String) : List (List RE) :=
  [[RE.lit "new", RE.ws1, RE.lit n, RE.ws0, RE.one ['(', '\x7b'] false],
   [RE.lit ":", RE.ws0, RE.lit n],
   [RE.lit ("<" ++ n ++ ">")],
   [RE.lit "AddComponent(", RE.many0 [','] true, RE.lit ",", RE.ws0, RE.lit "new",
    RE.ws1, RE.lit n],
   [RE.lit ("typeof(" ++ n ++ ")")],
   [accessAltPPPI, RE.ws1, RE.lit n, RE.ws1, RE.word1],
   [RE.lit (n ++ "."), RE.word1]]

/-- Python `has_legitimate_class_usage(class_scope_lines, other_class_name)`. -/
def has_legitimate_class_usage (scopeLines : List (Nat × String))
    (otherClassName : String) : Bool :=
  scopeLines.any
    (fun p => (legitimatePatterns otherClassName).any
      (fun pat => reSearchB pat (pyStrip p.2)))

/-- The twenty `class_usage_patterns`, each with its reason label, in
source order. -/
def class_usage_patterns (n : String) : List (List RE × String) :=
  [([RE.lit ":", RE.ws0, RE.lit n], "inheritance"),
   ([RE.lit ":", RE.ws0, RE.dotStar, RE.lit ",", RE.ws0, RE.lit n],
    "interface implementation"),
   ([accessAltPPPI, RE.ws1, RE.lit n, RE.ws1, RE.word1], "field declaration"),
   ([accessAltPPPI, RE.ws1, RE.dotStar, RE.lit n, RE.ws1, RE.word1], "field declaration"),
   ([RE.lit ("<" ++ n ++ ">")], "generic type parameter"),
   ([RE.lit ("RefRW<" ++ n ++ ">")], "ECS component reference (RefRW)"),
   ([RE.lit ("RefRO<" ++ n ++ ">")], "ECS component reference (RefRO)"),
   ([RE.lit "SystemAPI.", RE.dotStar, RE.lit "<", RE.dotStar, RE.lit n, RE.dotStar,
     RE.lit ">"], "SystemAPI call"),
   ([RE.lit "new", RE.ws1, RE.lit n, RE.ws0, RE.one ['(', '\x7b'] false],
    "object instantiation"),
   ([RE.lit (n ++ "."), RE.word1], "static member access"),
   ([RE.lit ("GetComponent<" ++ n ++ ">")], "GetComponent call"),
   ([RE.lit ("HasComponent<" ++ n ++ ">")], "HasComponent call"),
   ([RE.lit "AddComponent(", RE.many0 [','] true, RE.lit ",", RE.ws0, RE.lit "new",
     RE.ws1, RE.lit n, RE.notWordAhead, RE.ws0, RE.lit "("], "AddComponent call"),
   ([RE.lit ("typeof(" ++ n ++ ")")], "typeof reference"),
   ([RE.lit ("[UpdateBefore(typeof(" ++ n ++ "))]")], "UpdateBefore dependency"),
   ([RE.lit ("[UpdateAfter(typeof(" ++ n ++ "))]")], "UpdateAfter dependency"),
   ([RE.lit "UpdateBefore", RE.dotStar, RE.lit n], "UpdateBefore dependency"),
   ([RE.lit "UpdateAfter", RE.dotStar, RE.lit n], "UpdateAfter dependency"),
   ([RE.bWord, RE.lit n, RE.bWord, RE.dotStar, RE.ws1, RE.word1, RE.ws0,
     RE.one ['(', ';'] false], "method parameter/variable"),
   ([RE.bWord, RE.lit n, RE.bWord], "general reference")]

/-- The per-line scan for references to one target: the first matching
pattern on a line records one reason; a line with no match records none. -/
def scanScopeForTarget (patterns : List (List RE × String)) (fpath : String)
    (scopeLines : List (Nat × String)) : Bool × List String :=
  scopeLines.foldl
    (fun acc p =>
      match patterns.find? (fun pr => reSearchB pr.1 p.2) with
      | some pr =>
        (true, acc.2 ++ [pr.2 ++ " (" ++ fpath ++ ":" ++ toString p.1 ++ ")"])
      | none => acc)
    (false, [])

/-- The inner loop of the second pass of `analyze_class_dependencies`: the
dependencies of one class on every other known class, with the
self-reference skip, the co-location guard, and the namespace-visibility
guard, returning `(class_deps, class_dep_details)`. -/
def processClass (allClasses : List (String × String × String))
    (fileShorts : List String) (fpath : String) (lines : List String)
    (ns : String) (customUsings : List String) (className fullClassName : String) :
    List String × List (String × List String) :=
  let scope := extract_class_scope lines className
  allClasses.foldl
    (fun acc e =>
      if e.2.2 = fullClassName then acc
      else
        if pySplitDotLast e.1 ∈ fileShorts ∧ e.2.2 ≠ fullClassName ∧
            ¬ has_legitimate_class_usage scope (pySplitDotLast e.1) then acc
        else if ¬ (e.2.1 = ns ∨ e.2.1 ∈ customUsings ∨ e.2.1 = "Global") then acc
        else if (scanScopeForTarget (class_usage_patterns e.1) fpath scope).1 then
          (acc.1 ++ [e.2.2],
           updAssoc e.2.2 []
             (fun rs => rs ++ (scanScopeForTarget (class_usage_patterns e.1) fpath scope).2)
             acc.2)
        else acc)
    ([], [])

/-- Second pass of `analyze_class_dependencies` over one unit. -/
def classSecondPassFile (allClasses : List (String × String × String))
    (acc : List (String × List String) × List (String × List (String × List String)))
    (f : CSFile) :
    List (String × List String) × List (String × List (String × List String)) :=
  let content := fileContent f
  let ns := (extractNamespace content).getD "Global"
  let customUsings := (findUsings content).filter
    (fun u => ¬ startswithAny u frameworkRoots)
  let cfc := currentFileClasses allClasses ns content
  cfc.foldl
    (fun acc ce =>
      if ¬ (processClass allClasses (cfc.map (·.1)) f.path f.lines ns customUsings
          ce.1 ce.2).1.isEmpty then
        (setAssoc ce.2
          (dedupFirst (processClass allClasses (cfc.map (·.1)) f.path f.lines ns
            customUsings ce.1 ce.2).1) acc.1,
         setAssoc ce.2
          ((processClass allClasses (cfc.map (·.1)) f.path f.lines ns customUsings
            ce.1 ce.2).2.map (fun t => (t.1, dedupFirst t.2))) acc.2)
      else acc)
    acc

/-- Python `analyze_class_dependencies()`: returns
`(dependencies, all_classes, dependency_details)`. -/
def analyze_class_dependencies (files : List CSFile) :
    List (String × List String) × List (String × String × String) ×
      List (String × List (String × List String)) :=
  let allClasses := collectAllClasses files
  let r := files.foldl (classSecondPassFile allClasses) ([], [])
  (r.1, allClasses, r.2)

/-! ## Systems-only analysis (`analyze_systems_only`) -/

/-- The three `system_patterns`, in source order. -/
def system_patterns : List (List RE) :=
  [[RE.opt accessAltPIP, RE.ws0, modOpt "partial", strAlt ["struct", "class"], RE.ws1,
    RE.grp (seqRE [RE.word0, RE.lit "System", RE.word0]),
    altsRE [seqRE [RE.ws0, RE.lit ":"], seqRE [RE.ws1, RE.lit "implements"],
      seqRE [RE.ws0, RE.lit "\x7b"]]],
   [RE.opt accessAltPIP, RE.ws0, modOpt "partial", strAlt ["struct", "class"], RE.ws1,
    RE.grp RE.word1, RE.ws0, RE.lit ":", RE.ws0, RE.dotStar, RE.lit "ISystem"],
   [RE.opt accessAltPIP, RE.ws0, modOpt "partial", RE.lit "struct", RE.ws1,
    RE.grp RE.word1, RE.ws0, RE.lit ":", RE.ws0, RE.dotStar, RE.lit "ISystem"]]

/-- First pass of `analyze_systems_only` over one unit: record every
matched system name not ending in a non-system suffix, and add its full
name to `all_systems`. -/
def systemFirstPassFile (acc : List (String × String × String) × List String)
    (f : CSFile) : List (String × String × String) × List String :=
  system_patterns.foldl
    (fun acc pat =>
      (reFindAll pat false (fileContent f)).foldl
        (fun acc caps =>
          if firstCap caps ≠ "" ∧
              ¬ endswithAny (firstCap caps) ["Authoring", "Baker", "Data"] then
            (setAssoc (firstCap caps)
              ((extractNamespace (fileContent f)).getD "Global",
               (extractNamespace (fileContent f)).getD "Global" ++ "." ++ firstCap caps)
              acc.1,
             insertStr acc.2
              ((extractNamespace (fileContent f)).getD "Global" ++ "." ++ firstCap caps))
          else acc)
        acc)
    acc

/-- The nine `system_usage_patterns`, each with its reason label, in
source order. -/
def system_usage_patterns (n : String) : List (List RE × String) :=
  [([RE.lit ("[UpdateBefore(typeof(" ++ n ++ "))]")], "UpdateBefore dependency"),
   ([RE.lit ("[UpdateAfter(typeof(" ++ n ++ "))]")], "UpdateAfter dependency"),
   ([RE.lit "UpdateBefore", RE.dotStar, RE.lit n], "UpdateBefore dependency"),
   ([RE.lit "UpdateAfter", RE.dotStar, RE.lit n], "UpdateAfter dependency"),
   ([RE.lit ("SystemAPI.GetSingleton<" ++ n ++ ">")], "SystemAPI singleton access"),
   ([RE.lit ("World.GetOrCreateSystem<" ++ n ++ ">")], "system reference"),
   ([RE.lit ("typeof(" ++ n ++ ")")], "typeof reference"),
   ([RE.bWord, RE.lit n, RE.bWord, RE.dotStar, RE.ws1, RE.word1, RE.ws0,
     RE.one [';', '='] false], "variable/field reference"),
   ([RE.bWord, RE.lit n, RE.bWord], "general reference")]

/-- The per-line scan of a whole unit for references to one target system
(`enumerate(lines, 1)`, first matching pattern per line). -/
def scanLinesForTarget (patterns : List (List RE × String)) (fpath : String)
    (lines : List String) : Bool × List String :=
  (lines.enumFrom 1).foldl
    (fun acc p =>
      match patterns.find? (fun pr => reSearchB pr.1 p.2) with
      | some pr =>
        (true, acc.2 ++ [pr.2 ++ " (" ++ fpath ++ ":" ++ toString p.1 ++ ")"])
      | none => acc)
    (false, [])

/-- The inner loop of the second pass of `analyze_systems_only`: the
dependencies of one system on every other known system. -/
def processSystem (systemClasses : List (String × String × String))
    (fpath : String) (lines : List String) (ns : String)
    (customUsings : List String) (fullSystemName : String) :
    List String × List (String × List String) :=
  systemClasses.foldl
    (fun acc e =>
      if e.2.2 = fullSystemName then acc
      else if ¬ (e.2.1 = ns ∨ e.2.1 ∈ customUsings ∨ e.2.1 = "Global") then acc
      else if (scanLinesForTarget (system_usage_patterns e.1) fpath lines).1 then
        (acc.1 ++ [e.2.2],
         updAssoc e.2.2 []
           (fun rs => rs ++ (scanLinesForTarget (system_usage_patterns e.1) fpath lines).2)
           acc.2)
      else acc)
    ([], [])

/-- `(?:struct|class)\s+{name}` for locating a system in a unit. -/
def systemInFilePat (name : String) : List RE :=
  [strAlt ["struct", "class"], RE.ws1, RE.lit name]

/-- Second pass of `analyze_systems_only` over one unit.  Every system of
the unit is entered into `dependencies`, with an empty list when it has no
dependencies. -/
def systemSecondPassFile (systemClasses : List (String × String × String))
    (acc : List (String × List String) × List (String × List (String × List String)))
    (f : CSFile) :
    List (String × List String) × List (String × List (String × List String)) :=
  let content := fileContent f
  let ns := (extractNamespace content).getD "Global"
  let customUsings := (findUsings content).filter
    (fun u => ¬ startswithAny u frameworkRoots)
  let current := systemClasses.filterMap
    (fun e =>
      if e.2.1 = ns ∧ reSearchB (systemInFilePat e.1) content then some (e.1, e.2.2)
      else none)
  current.foldl
    (fun acc se =>
      (setAssoc se.2
        (if ¬ (processSystem systemClasses f.path f.lines ns customUsings se.2).1.isEmpty
         then dedupFirst (processSystem systemClasses f.path f.lines ns customUsings se.2).1
         else []) acc.1,
       if ¬ (processSystem systemClasses f.path f.lines ns customUsings se.2).1.isEmpty
       then setAssoc se.2
         ((processSystem systemClasses f.path f.lines ns customUsings se.2).2.map
           (fun t => (t.1, dedupFirst t.2))) acc.2
       else acc.2))
    acc

/-- Python `system_classes` and `all_systems` after the first pass. -/
def collectSystemClasses (files : List CSFile) :
    List (String × String × String) × List String :=
  files.foldl systemFirstPassFile ([], [])

/-- The final loop of `analyze_systems_only`: give every discovered system
a `dependencies` entry, empty if absent. -/
def fillMissingSystems (allSystems : List String)
    (deps : List (String × List String)) : List (String × List String) :=
  allSystems.foldl
    (fun deps s => if (lookupAssoc deps s).isSome then deps else deps ++ [(s, [])])
    deps

/-- Python `analyze_systems_only()`: returns
`(dependencies, all_systems, dependency_details)`. -/
def analyze_systems_only (files : List CSFile) :
    List (String × List String) × List String ×
      List (String × List (String × List String)) :=
  let fp := collectSystemClasses files
  let r := files.foldl (systemSecondPassFile fp.1) ([], [])
  (fillMissingSystems fp.2 r.1, fp.2, r.2)

/-! ## DOT rendering (`generate_dot_content`) -/

/-- The nodes named in some circular edge. -/
def circularNodesOf (circularDeps : List (String × String)) : List String :=
  circularDeps.foldl (fun acc e => insertStr (insertStr acc e.1) e.2) []

/-- `all_nodes`: every key of `dependencies` plus every target. -/
def allNodesOf (dependencies : List (String × List String)) : List String :=
  dependencies.foldl (fun acc p => p.2.foldl insertStr acc)
    (dedupFirst (dependencies.map (·.1)))

/-- One node line of the DOT output, with cycle-membership color coding. -/
def nodeLine (circularNodes : List String) (node : String) : String :=
  let color := if node ∈ circularNodes then "lightcoral" else "lightgreen"
  "  \"" ++ pyReplace node "\"" "\\\"" ++ "\" [fillcolor=" ++ color ++ "];\n"

/-- The truncated reason label: `"\\n".join(reasons[:2])` when the list
has at most two entries, else the first reason and a count of the rest. -/
def edgeLabelRaw (reasons : List String) : String :=
  if reasons.length ≤ 2 then String.intercalate "\\n" (reasons.take 2)
  else (reasons.headD "") ++ "\\n...and " ++ toString (reasons.length - 1) ++ " more"

/-- `label.replace('"', '\\"').replace('\n', '\\n')`. -/
def escapeLabel (label : String) : String :=
  pyReplace (pyReplace label "\"" "\\\"") "\n" "\\n"

/-- The label text for one circular edge: the reasons of the first detail
entry whose target matches, truncated and escaped; `""` when absent. -/
def findEdgeLabel (details : List (String × List String)) (toNs : String) : String :=
  match details.find? (fun p => p.1 = toNs) with
  | some p => escapeLabel (edgeLabelRaw p.2)
  | none => ""

/-- `edge_color`: red iff the edge is in the circular set. -/
def edgeColorOf (circularDeps : List (String × String)) (fromNs toNs : String) :
    String :=
  if (fromNs, toNs) ∈ circularDeps then "red" else "darkgreen"

/-- `label`: computed only for red edges with available details; `""`
otherwise. -/
def edgeLabelOf (dependencyDetails : Option (List (String × List (String × List String))))
    (circularDeps : List (String × String)) (fromNs toNs : String) : String :=
  if edgeColorOf circularDeps fromNs toNs = "red" then
    match dependencyDetails with
    | some dd =>
      if dd.isEmpty then ""
      else
        match lookupAssoc dd fromNs with
        | some details => findEdgeLabel details toNs
        | none => ""
    | none => ""
  else ""

/-- One edge line of the DOT output: red with a reason label for circular
edges (when details are available), plain dark green otherwise. -/
def edgeLine (dependencyDetails : Option (List (String × List (String × List String))))
    (circularDeps : List (String × String)) (fromNs toNs : String) : String :=
  if edgeLabelOf dependencyDetails circularDeps fromNs toNs ≠ "" then
    "  \"" ++ pyReplace fromNs "\"" "\\\"" ++ "\" -> \"" ++
      pyReplace toNs "\"" "\\\"" ++ "\" [color=" ++
      edgeColorOf circularDeps fromNs toNs ++ ", label=\"" ++
      edgeLabelOf dependencyDetails circularDeps fromNs toNs ++ "\"];\n"
  else
    "  \"" ++ pyReplace fromNs "\"" "\\\"" ++ "\" -> \"" ++
      pyReplace toNs "\"" "\\\"" ++ "\" [color=" ++
      edgeColorOf circularDeps fromNs toNs ++ "];\n"

/-- Python `generate_dot_content(dependencies, circular_deps, diagram_type,
dependency_details)`. -/
def generate_dot_content (dependencies : List (String × List String))
    (circular_deps : List (String × String)) (diagram_type : String)
    (dependency_details : Option (List (String × List (String × List String)))) :
    String :=
  let header := "digraph Dependencies \x7b\n  rankdir=TB;\n" ++
    "  node [shape=box, style=filled];\n  edge [fontsize=8];\n\n"
  let circularNodes := circularNodesOf circular_deps
  let nodes := allNodesOf dependencies
  let nodeLines := String.join (nodes.map (nodeLine circularNodes))
  let edgeLines := String.join
    (dependencies.map
      (fun p => String.join (p.2.map (edgeLine dependency_details circular_deps p.1))))
  header ++ nodeLines ++ "\n" ++ edgeLines ++ "\x7d"

/-! ## Concrete example inputs -/

/-- The example graph of the specification: `{A→B, B→C, C→A, D→A}` with the
keys in the order `A, B, C, D`. -/
def exampleGraph : Graph :=
  [("A", ["B"]), ("B", ["C"]), ("C", ["A"]), ("D", ["A"])]

/-- A graph with two overlapping cycles through `B`: `A↔B` and `B↔C`. -/
def twoCycleGraph : Graph :=
  [("A", ["B"]), ("B", ["A", "C"]), ("C", ["B"])]

/-- A two-node cycle. -/
def pairCycleGraph : Graph := [("A", ["B"]), ("B", ["A"])]

/-- Example unit with a namespace and one custom using statement. -/
def exNsFile : CSFile :=
  ⟨"a.cs", ["using Bar;", "using System.Text;", "namespace Foo", "\x7b", "\x7d"]⟩

/-- Example unit declaring co-located classes `A` and `B`, where `A` has a
typed field of `B` and `B` does not use `A`. -/
def exClassFile : CSFile :=
  ⟨"b.cs",
   ["namespace N", "public class A \x7b", "    private B bField;", "\x7d",
    "public class B \x7b", "\x7d"]⟩

/-- Example unit with no namespace declaration and one system class. -/
def exNoNsFile : CSFile :=
  ⟨"g.cs", ["public class FooSystem : ISystem \x7b", "\x7d"]⟩

/-- Example detail table for the renderer: edge `(X,Y)` has one reason,
edge `(X,Z)` has three. -/
def exDetails : List (String × List (String × List String)) :=
  [("X", [("Y", ["alpha"]), ("Z", ["p1", "p2", "p3"])])]

/-- Example circular-edge set for the renderer. -/
def exCircular : List (String × String) := [("X", "Y"), ("X", "Z")]

/-! # Theorems

## Generic fold and container lemmas -/

theorem foldl_induction {α β : Type} {P : β → Prop} (f : β → α → β) (l : List α)
    {b : β} (hb : P b) (hf : ∀ b' a, a ∈ l → P b' → P (f b' a)) :
    P (l.foldl f b) := by
  induction l generalizing b with
  | nil => exact hb
  | cons a t ih =>
    exact ih (hf b a (List.mem_cons_self a t) hb)
      (fun b' x hx hb' => hf b' x (List.mem_cons_of_mem a hx) hb')

theorem mem_insertPair {l : List (String × String)} {e x : String × String}
    (h : x ∈ insertPair l e) : x ∈ l ∨ x = e := by
  unfold insertPair at h
  split at h
  · exact Or.inl h
  · rcases List.mem_append.mp h with h' | h'
    · exact Or.inl h'
    · exact Or.inr (List.mem_singleton.mp h')

theorem mem_insertStr_of_mem {l : List String} {x : String} (y : String)
    (h : x ∈ l) : x ∈ insertStr l y := by
  unfold insertStr
  split
  · exact h
  · exact List.mem_append.mpr (Or.inl h)

theorem mem_insertStr_self (l : List String) (y : String) : y ∈ insertStr l y := by
  unfold insertStr
  split
  · assumption
  · exact List.mem_append.mpr (Or.inr (List.mem_singleton.mpr rfl))

theorem mem_dedupFirst {l : List String} {x : String} (h : x ∈ dedupFirst l) :
    x ∈ l := by
  induction l with
  | nil => simp [dedupFirst] at h
  | cons a t ih =>
    simp only [dedupFirst, List.mem_cons] at h
    rcases h with h | h
    · exact h ▸ List.mem_cons_self a t
    · exact List.mem_cons_of_mem a (ih (List.mem_of_mem_filter h))

theorem lookupAssoc_mem {V : Type} {l : List (String × V)} {k : String} {v : V}
    (h : lookupAssoc l k = some v) : (k, v) ∈ l := by
  unfold lookupAssoc at h
  cases hf : l.find? (fun p => p.1 = k) with
  | none => rw [hf] at h; exact absurd h (by simp)
  | some p =>
    rw [hf] at h
    have hmem := List.mem_of_find?_eq_some hf
    have hkey := List.find?_some hf
    have hk : p.1 = k := by simpa using hkey
    have hv : p.2 = v := by simpa using h
    have : p = (k, v) := Prod.ext hk hv
    exact this ▸ hmem

theorem mem_updAssoc {V : Type} {k : String} {d : V} {f : V → V}
    {l : List (String × V)} {p : String × V} (h : p ∈ updAssoc k d f l) :
    p ∈ l ∨ (p.1 = k ∧ (p.2 = f d ∨ ∃ v, (k, v) ∈ l ∧ p.2 = f v)) := by
  induction l with
  | nil =>
    simp only [updAssoc, List.mem_singleton] at h
    subst h
    exact Or.inr ⟨rfl, Or.inl rfl⟩
  | cons a t ih =>
    obtain ⟨k', v⟩ := a
    simp only [updAssoc] at h
    by_cases hk : k' = k
    · rw [if_pos hk] at h
      subst hk
      rcases List.mem_cons.mp h with h | h
      · subst h
        exact Or.inr ⟨rfl, Or.inr ⟨v, List.mem_cons_self _ _, rfl⟩⟩
      · exact Or.inl (List.mem_cons_of_mem _ h)
    · rw [if_neg hk] at h
      rcases List.mem_cons.mp h with h | h
      · exact Or.inl (h ▸ List.mem_cons_self _ _)
      · rcases ih h with h' | ⟨h1, h2⟩
        · exact Or.inl (List.mem_cons_of_mem _ h')
        · refine Or.inr ⟨h1, ?_⟩
          rcases h2 with h2 | ⟨w, hw, hw2⟩
          · exact Or.inl h2
          · exact Or.inr ⟨w, List.mem_cons_of_mem _ hw, hw2⟩

theorem mem_setAssoc {V : Type} {k : String} {v : V} {l : List (String × V)}
    {p : String × V} (h : p ∈ setAssoc k v l) :
    p ∈ l ∨ (p.1 = k ∧ p.2 = v) := by
  rcases mem_updAssoc h with h' | ⟨h1, h2⟩
  · exact Or.inl h'
  · refine Or.inr ⟨h1, ?_⟩
    rcases h2 with h2 | ⟨w, _, hw2⟩ <;> assumption

/-! ## Path and cycle lemmas for the DFS -/

theorem pathPairs_cons_sub {a : String} {l : List String} {e : String × String}
    (h : e ∈ pathPairs l) : e ∈ pathPairs (a :: l) := by
  cases l with
  | nil => simp [pathPairs] at h
  | cons b t => exact List.mem_cons_of_mem _ h

theorem pathPairs_drop_sub (k : Nat) (l : List String) {e : String × String}
    (h : e ∈ pathPairs (l.drop k)) : e ∈ pathPairs l := by
  induction k generalizing l with
  | zero => simpa using h
  | succ n ih =>
    cases l with
    | nil => simpa using h
    | cons a t => exact pathPairs_cons_sub (ih t (by simpa using h))

theorem pathPairs_append_last (l : List String) (x : String) :
    pathPairs (l ++ [x]) =
      pathPairs l ++ (match l.getLast? with | some y => [(y, x)] | none => []) := by
  induction l with
  | nil => rfl
  | cons a t ih =>
    cases t with
    | nil => rfl
    | cons b t' =>
      have lhs : pathPairs ((a :: b :: t') ++ [x]) =
          (a, b) :: pathPairs ((b :: t') ++ [x]) := rfl
      rw [lhs, ih, List.getLast?_cons_cons]
      rfl

theorem getLast?_pathPairs_mem {l : List String} {y : String} (x : String)
    (h : l.getLast? = some y) : (y, x) ∈ pathPairs (l ++ [x]) := by
  rw [pathPairs_append_last, h]
  exact List.mem_append.mpr (Or.inr (List.mem_singleton.mpr rfl))

theorem pyIndex_lt {l : List String} {x : String} {k : Nat}
    (h : pyIndex l x = some k) : k < l.length := by
  induction l generalizing k with
  | nil => simp [pyIndex] at h
  | cons a t ih =>
    simp only [pyIndex] at h
    split at h
    · cases h; simp
    · cases hk : pyIndex t x with
      | none => rw [hk] at h; simp at h
      | some m =>
        rw [hk] at h
        simp only [Option.map_some', Option.some.injEq] at h
        have := ih hk
        simp only [List.length_cons]
        omega

theorem cycle_pairs_sub {path : List String} {node : String} {k : Nat}
    (hk : pyIndex path node = some k) {e : String × String}
    (h : e ∈ pathPairs (path.drop k ++ [node])) :
    e ∈ pathPairs (path ++ [node]) := by
  have heq : path.drop k ++ [node] = (path ++ [node]).drop k :=
    (List.drop_append_of_le_length (le_of_lt (pyIndex_lt hk))).symm
  exact pathPairs_drop_sub k _ (heq ▸ h)

theorem addCycle_edges {g : Graph} {s : DfsState} {cycle : List String}
    (hs : ∀ e ∈ s.circularDeps, e.2 ∈ getDeps g e.1)
    (hc : ∀ e ∈ pathPairs cycle, e.2 ∈ getDeps g e.1) :
    ∀ e ∈ (addCycle s cycle).circularDeps, e.2 ∈ getDeps g e.1 := by
  unfold addCycle
  refine foldl_induction
    (P := fun s' : DfsState => ∀ e ∈ s'.circularDeps, e.2 ∈ getDeps g e.1)
    _ _ hs ?_
  intro s' a ha hP e he
  rcases mem_insertPair he with h | h
  · exact hP e h
  · exact h ▸ hc a ha

theorem dfsWrap_circularDeps (node : String) (r : Bool × DfsState) :
    (dfsWrap node r).2.circularDeps = r.2.circularDeps := by
  unfold dfsWrap
  split <;> rfl

/-- Every candidate edge recorded by `dfs` is an edge of the graph,
provided the edges along `path ++ [node]` are. -/
theorem dfs_edges (g : Graph) :
    ∀ (fuel : Nat) (node : String) (path : List String) (s : DfsState),
      (∀ e ∈ pathPairs (path ++ [node]), e.2 ∈ getDeps g e.1) →
      (∀ e ∈ s.circularDeps, e.2 ∈ getDeps g e.1) →
      ∀ e ∈ (dfs g fuel node path s).2.circularDeps, e.2 ∈ getDeps g e.1 := by
  intro fuel
  induction fuel with
  | zero => intro node path s _ hs; exact hs
  | succ n ih =>
    intro node path s hpath hs
    rw [dfs]
    cases hrec : s.recStack.contains node with
    | true =>
      simp only [hrec, if_true]
      cases hidx : pyIndex path node with
      | some k =>
        simp only [hidx]
        exact addCycle_edges hs (fun e he => hpath e (cycle_pairs_sub hidx he))
      | none =>
        simp only [hidx]
        cases hlast : path.getLast? with
        | some last =>
          simp only [hlast]
          intro e he
          rcases mem_insertPair he with h | h
          · exact hs e h
          · exact h ▸ hpath _ (getLast?_pathPairs_mem node hlast)
        | none => simp only [hlast]; exact hs
    | false =>
      simp only [hrec, Bool.false_eq_true, if_false]
      cases hvis : s.visited.contains node with
      | true => simp only [hvis, if_true]; exact hs
      | false =>
        simp only [hvis, Bool.false_eq_true, if_false, dfsWrap_circularDeps]
        refine foldl_induction
          (P := fun acc : Bool × DfsState =>
            ∀ e ∈ acc.2.circularDeps, e.2 ∈ getDeps g e.1)
          _ _ hs ?_
        intro acc m hm hP
        by_cases hacc : acc.1 = true
        · simpa [hacc] using hP
        · have hacc' : acc.1 = false := Bool.eq_false_iff.mpr hacc
          simp only [hacc', Bool.false_eq_true, if_false]
          refine ih m (path ++ [node]) acc.2 ?_ hP
          intro e he
          rw [pathPairs_append_last, List.getLast?_concat] at he
          rcases List.mem_append.mp he with h | h
          · exact hpath e h
          · rw [List.mem_singleton.mp h]
            exact hm

/-- Every edge returned by `find_circular_dependencies` is an edge of the
graph and survives the phase-2 reachability check. -/
theorem fcd_mem_spec {g : Graph} {a b : String}
    (h : (a, b) ∈ find_circular_dependencies g) :
    b ∈ getDeps g a ∧ isEdgeTrulyCircular g a b = true := by
  unfold find_circular_dependencies at h
  have h1 := List.mem_of_mem_filter h
  have h2 := List.of_mem_filter h
  refine ⟨?_, by simpa using h2⟩
  have hall : ∀ e ∈ (g.foldl
      (fun st kv =>
        if st.visited.contains kv.1 then st else (dfs g (fcdFuel g) kv.1 [] st).2)
      (⟨[], [], [], []⟩ : DfsState)).circularDeps, e.2 ∈ getDeps g e.1 := by
    refine foldl_induction
      (P := fun st : DfsState => ∀ e ∈ st.circularDeps, e.2 ∈ getDeps g e.1)
      _ _ ?_ ?_
    · intro e he; simp at he
    · intro st kv _ hP e he
      split at he
      · exact hP e he
      · refine dfs_edges g (fcdFuel g) kv.1 [] st ?_ hP e he
        intro e' he'; simp [pathPairs] at he'
  exact hall (a, b) h1

/-- Truth of the phase-2 check implies reachability in the graph. -/
theorem canReachBack_fold_sound (g : Graph) (n : Nat) (target : String)
    (ih : ∀ cur vis, (canReachBack g n cur target vis).1 = true → Reaches g cur target) :
    ∀ (l : List String) (acc : Bool × List String),
      (l.foldl (fun acc m => if acc.1 then acc else canReachBack g n m target acc.2)
        acc).1 = true →
      acc.1 = true ∨ ∃ m ∈ l, Reaches g m target := by
  intro l
  induction l with
  | nil => intro acc h; exact Or.inl h
  | cons a t iht =>
    intro acc h
    rcases iht _ h with h' | ⟨m, hm, hr⟩
    · by_cases hacc : acc.1 = true
      · exact Or.inl hacc
      · have hacc' : acc.1 = false := Bool.eq_false_iff.mpr hacc
        simp only [hacc', Bool.false_eq_true, if_false] at h'
        exact Or.inr ⟨a, List.mem_cons_self a t, ih a acc.2 h'⟩
    · exact Or.inr ⟨m, List.mem_cons_of_mem a hm, hr⟩

theorem canReachBack_sound (g : Graph) :
    ∀ (fuel : Nat) (cur target : String) (vis : List String),
      (canReachBack g fuel cur target vis).1 = true → Reaches g cur target := by
  intro fuel
  induction fuel with
  | zero => intro cur target vis h; simp [canReachBack] at h
  | succ n ih =>
    intro cur target vis h
    rw [canReachBack] at h
    by_cases hct : cur = target
    · exact hct ▸ Reaches.refl cur
    · rw [if_neg hct] at h
      cases hv : vis.contains cur with
      | true => rw [hv] at h; simp at h
      | false =>
        rw [hv] at h
        simp only [Bool.false_eq_true, if_false] at h
        rcases canReachBack_fold_sound g n target (fun cur vis => ih cur target vis)
          _ _ h with h' | ⟨m, hm, hr⟩
        · simp at h'
        · exact Reaches.step hm hr

/-! ## Claims about the cycle detector: C1, C2, C3, C9 -/

/-- **C1 (counterexample).** On the graph `{A→[B], B→[A,C], C→[B]}` the
edge `(B,C)` is an edge of the graph and there is a directed path from `C`
back to `B`, yet the cycle detector does not report `(B,C)`: the claimed
"if and only if" fails in the completeness direction. -/
theorem claim_C1_counterexample :
    ("C" ∈ getDeps twoCycleGraph "B") ∧
    Reaches twoCycleGraph "C" "B" ∧
    ("B", "C") ∉ find_circular_dependencies twoCycleGraph := by
  refine ⟨by decide, ?_, by decide⟩
  exact Reaches.step (b := "B") (by decide) (Reaches.refl _)

/-- **C1 (amended).** Every edge `(a, b)` reported by the cycle detector
is an edge of the graph from whose head `b` a directed path leads back to
its tail `a` (soundness).  The converse — that every edge lying on some
directed cycle is reported — does not hold. -/
theorem claim_C1 (g : Graph) (a b : String)
    (h : (a, b) ∈ find_circular_dependencies g) :
    b ∈ getDeps g a ∧ Reaches g b a :=
  ⟨(fcd_mem_spec h).1,
   canReachBack_sound g (fcdFuel g) b a [] (fcd_mem_spec h).2⟩

theorem claim_C1_witness :
    (("A", "B") ∈ find_circular_dependencies pairCycleGraph) ∧
    ("B" ∈ getDeps pairCycleGraph "A" ∧ Reaches pairCycleGraph "B" "A") :=
  ⟨by decide, claim_C1 pairCycleGraph "A" "B" (by decide)⟩

/-- **C3.** Every pair `(a, b)` returned by the cycle detector is an edge
of the input graph, including pairs added through the `ValueError`
fallback branch of the DFS. -/
theorem claim_C3 (g : Graph) (a b : String)
    (h : (a, b) ∈ find_circular_dependencies g) : b ∈ getDeps g a :=
  (fcd_mem_spec h).1

theorem claim_C3_witness :
    (("A", "B") ∈ find_circular_dependencies exampleGraph) ∧
    "B" ∈ getDeps exampleGraph "A" :=
  ⟨by decide, claim_C3 exampleGraph "A" "B" (by decide)⟩

/-! ## Claims about the cycle detector: C2 and C9 -/

/-- **C2.** On the graph `{A→B, B→C, C→A, D→A}` (keys iterated in the
order `A, B, C, D`), `find_circular_dependencies` returns exactly the edge
set `{(A,B), (B,C), (C,A)}`; the edge `(D,A)` is not in the result and `D`
is not an endpoint of any returned edge. -/
theorem claim_C2 :
    find_circular_dependencies exampleGraph = [("A", "B"), ("B", "C"), ("C", "A")] ∧
    ("D", "A") ∉ find_circular_dependencies exampleGraph ∧
    ∀ e ∈ find_circular_dependencies exampleGraph, e.1 ≠ "D" ∧ e.2 ≠ "D" := by
  refine ⟨by decide, by decide, by decide⟩

/-- **C9.** The cycle detector is a pure function of its input graph:
running it twice on the same graph yields the identical edge set. -/
theorem claim_C9 (g : Graph) :
    find_circular_dependencies g = find_circular_dependencies g := rfl

/-! ## No-self-edge invariants (C4) -/

theorem addUsing_no_self {acc : List (String × List (String × List String))}
    {ns target loc : String}
    (H : ∀ p ∈ acc, ∀ q ∈ p.2, q.1 ≠ p.1) (ht : target ≠ ns) :
    ∀ p ∈ addUsing acc ns target loc, ∀ q ∈ p.2, q.1 ≠ p.1 := by
  intro p hp q hq
  rcases mem_updAssoc hp with hp' | ⟨hk, hv⟩
  · exact H p hp' q hq
  · rw [hk]
    rcases hv with hv | ⟨v, hvmem, hv⟩
    · rw [hv] at hq
      have : q = (target, [loc]) := by simpa [updAssoc] using hq
      rw [this]
      exact ht
    · rw [hv] at hq
      rcases mem_updAssoc hq with hq' | ⟨hq1, _⟩
      · exact H (ns, v) hvmem q hq'
      · rw [hq1]; exact ht

theorem nsUsings_no_self (files : List CSFile) :
    ∀ p ∈ files.foldl nsFileStep [], ∀ q ∈ p.2, q.1 ≠ p.1 := by
  refine foldl_induction
    (P := fun acc : List (String × List (String × List String)) =>
      ∀ p ∈ acc, ∀ q ∈ p.2, q.1 ≠ p.1)
    _ _ (fun p hp => absurd hp (List.not_mem_nil p)) ?_
  intro acc f _ H
  unfold nsFileStep
  cases extractNamespace (fileContent f) with
  | none => exact H
  | some ns =>
    refine foldl_induction
      (P := fun acc : List (String × List (String × List String)) =>
        ∀ p ∈ acc, ∀ q ∈ p.2, q.1 ≠ p.1)
      _ _ H ?_
    intro acc' p _ H'
    unfold nsLineStep
    cases hm : matchUsing p.2 with
    | none => exact H'
    | some target =>
      simp only [hm]
      split
      · next hcond => exact addUsing_no_self H' hcond.2
      · exact H'

theorem processClass_no_self (allClasses : List (String × String × String))
    (fileShorts : List String) (fpath : String) (lines : List String)
    (ns : String) (customUsings : List String) (className fullClassName : String) :
    ∀ d ∈ (processClass allClasses fileShorts fpath lines ns customUsings
      className fullClassName).1, d ≠ fullClassName := by
  unfold processClass
  refine foldl_induction
    (P := fun acc : List String × List (String × List String) =>
      ∀ d ∈ acc.1, d ≠ fullClassName) _ _ (by simp) ?_
  intro acc e _ hP
  split
  · exact hP
  next hne =>
    split
    · exact hP
    · split
      · exact hP
      · split
        · intro d hd
          rcases List.mem_append.mp hd with h | h
          · exact hP d h
          · rw [List.mem_singleton.mp h]; exact hne
        · exact hP

theorem processSystem_no_self (systemClasses : List (String × String × String))
    (fpath : String) (lines : List String) (ns : String)
    (customUsings : List String) (fullSystemName : String) :
    ∀ d ∈ (processSystem systemClasses fpath lines ns customUsings
      fullSystemName).1, d ≠ fullSystemName := by
  unfold processSystem
  refine foldl_induction
    (P := fun acc : List String × List (String × List String) =>
      ∀ d ∈ acc.1, d ≠ fullSystemName) _ _ (by simp) ?_
  intro acc e _ hP
  split
  · exact hP
  next hne =>
    split
    · exact hP
    · split
      · intro d hd
        rcases List.mem_append.mp hd with h | h
        · exact hP d h
        · rw [List.mem_singleton.mp h]; exact hne
      · exact hP

theorem classDeps_no_self (files : List CSFile) :
    ∀ p ∈ (analyze_class_dependencies files).1, p.1 ∉ p.2 := by
  show ∀ p ∈ (files.foldl (classSecondPassFile (collectAllClasses files)) ([], [])).1,
    p.1 ∉ p.2
  refine foldl_induction
    (P := fun acc : List (String × List String) ×
        List (String × List (String × List String)) => ∀ p ∈ acc.1, p.1 ∉ p.2)
    _ _ (by simp) ?_
  intro acc f _ hP
  unfold classSecondPassFile
  simp only []
  refine foldl_induction
    (P := fun acc : List (String × List String) ×
        List (String × List (String × List String)) => ∀ p ∈ acc.1, p.1 ∉ p.2)
    _ _ hP ?_
  intro acc' ce _ hP'
  split
  · intro p hp
    rcases mem_setAssoc hp with hp' | ⟨h1, h2⟩
    · exact hP' p hp'
    · rw [h1, h2]
      intro hmem
      exact processClass_no_self _ _ _ _ _ _ ce.1 ce.2 ce.2
        (mem_dedupFirst hmem) rfl
  · exact hP'

theorem systemDeps_second_no_self (systemClasses : List (String × String × String))
    (files : List CSFile) :
    ∀ p ∈ (files.foldl (systemSecondPassFile systemClasses) ([], [])).1,
      p.1 ∉ p.2 := by
  refine foldl_induction
    (P := fun acc : List (String × List String) ×
        List (String × List (String × List String)) => ∀ p ∈ acc.1, p.1 ∉ p.2)
    _ _ (by simp) ?_
  intro acc f _ hP
  unfold systemSecondPassFile
  simp only []
  refine foldl_induction
    (P := fun acc : List (String × List String) ×
        List (String × List (String × List String)) => ∀ p ∈ acc.1, p.1 ∉ p.2)
    _ _ hP ?_
  intro acc' se _ hP'
  intro p hp
  rcases mem_setAssoc hp with hp' | ⟨h1, h2⟩
  · exact hP' p hp'
  · rw [h1, h2]
    split
    · intro hmem
      exact processSystem_no_self _ _ _ _ _ se.2 se.2 (mem_dedupFirst hmem) rfl
    · simp

theorem fillMissing_no_self {deps : List (String × List String)}
    {allS : List String} (H : ∀ p ∈ deps, p.1 ∉ p.2) :
    ∀ p ∈ fillMissingSystems allS deps, p.1 ∉ p.2 := by
  unfold fillMissingSystems
  refine foldl_induction
    (P := fun d : List (String × List String) => ∀ p ∈ d, p.1 ∉ p.2) _ _ H ?_
  intro d s _ hP
  split
  · exact hP
  · intro p hp
    rcases List.mem_append.mp hp with h | h
    · exact hP p h
    · rw [List.mem_singleton.mp h]; simp

/-- **C4.** In every analysis mode, no symbol ever has a dependency edge
to itself: a key of the produced dependencies mapping never occurs in its
own target list (namespace mode excludes a using of the unit's own
namespace; class and system modes skip a candidate whose qualified name
equals the source's). -/
theorem claim_C4 (files : List CSFile) (k : String) (ts : List String) :
    (lookupAssoc (analyze_namespace_dependencies files).1 k = some ts → k ∉ ts) ∧
    (lookupAssoc (analyze_class_dependencies files).1 k = some ts → k ∉ ts) ∧
    (lookupAssoc (analyze_systems_only files).1 k = some ts → k ∉ ts) := by
  refine ⟨?_, ?_, ?_⟩
  · intro h
    have hmem := lookupAssoc_mem h
    unfold analyze_namespace_dependencies at hmem
    simp only [List.mem_map] at hmem
    obtain ⟨p, hp, hpe⟩ := hmem
    have hp' := List.mem_of_mem_filter hp
    have hns := nsUsings_no_self files p hp'
    have h1 : p.1 = k := congrArg Prod.fst hpe
    have h2 : p.2.map (·.1) = ts := congrArg Prod.snd hpe
    intro hk
    rw [← h2] at hk
    obtain ⟨q, hq, hq1⟩ := List.mem_map.mp hk
    exact hns q hq (hq1.trans h1.symm)
  · intro h
    exact classDeps_no_self files (k, ts) (lookupAssoc_mem h)
  · intro h
    have hmem : (k, ts) ∈ fillMissingSystems (collectSystemClasses files).2
        ((files.foldl (systemSecondPassFile (collectSystemClasses files).1)
          ([], [])).1) := lookupAssoc_mem h
    exact fillMissing_no_self
      (systemDeps_second_no_self (collectSystemClasses files).1 files) (k, ts) hmem

theorem claim_C4_witness :
    "Foo" ∉ ["Bar"] ∧ "N.A" ∉ ["N.B"] ∧ "Global.FooSystem" ∉ ([] : List String) :=
  ⟨(claim_C4 [exNsFile] "Foo" ["Bar"]).1 (by decide),
   (claim_C4 [exClassFile] "N.A" ["N.B"]).2.1 (by decide),
   (claim_C4 [exNoNsFile] "Global.FooSystem" []).2.2 (by decide)⟩

/-! ## Isolated system nodes are preserved (C7) -/

theorem lookupAssoc_append {V : Type} (l1 l2 : List (String × V)) (k : String) :
    lookupAssoc (l1 ++ l2) k =
      (lookupAssoc l1 k).orElse (fun _ => lookupAssoc l2 k) := by
  unfold lookupAssoc
  rw [List.find?_append]
  cases l1.find? (fun p => p.1 = k) <;> simp

theorem fillStep_mono {deps : List (String × List String)} {s x : String}
    (h : (lookupAssoc deps s).isSome) :
    (lookupAssoc
      (if (lookupAssoc deps x).isSome then deps else deps ++ [(x, [])]) s).isSome := by
  split
  · exact h
  · rw [lookupAssoc_append]
    obtain ⟨v, hv⟩ := Option.isSome_iff_exists.mp h
    simp [hv]

theorem fill_covers (allS : List String) :
    ∀ s ∈ allS, ∀ deps,
      (lookupAssoc (fillMissingSystems allS deps) s).isSome = true := by
  induction allS with
  | nil => intro s hs; simp at hs
  | cons a t ih =>
    intro s hs deps
    have hstep : ∀ d : List (String × List String),
        (lookupAssoc d s).isSome = true →
        (lookupAssoc (fillMissingSystems t d) s).isSome = true := by
      intro d hd
      unfold fillMissingSystems
      exact foldl_induction
        (P := fun d' : List (String × List String) =>
          (lookupAssoc d' s).isSome = true)
        _ _ hd (fun d' x _ h => fillStep_mono h)
    rcases List.mem_cons.mp hs with hs | hs
    · subst hs
      have h1 : (lookupAssoc
          (if (lookupAssoc deps s).isSome then deps
           else deps ++ [(s, [])]) s).isSome = true := by
        split
        · assumption
        next hnone =>
          have hn : lookupAssoc deps s = none := by
            cases h : lookupAssoc deps s
            · rfl
            · rw [h] at hnone; simp at hnone
          rw [lookupAssoc_append, hn]
          simp [lookupAssoc]
      exact hstep _ h1
    · exact ih s hs _

/-- **C7.** In system mode, every element of the discovered all-systems
set appears as a key of the returned dependencies mapping (isolated
systems are preserved, with an empty target list when they have no
outgoing dependencies). -/
theorem claim_C7 (files : List CSFile) (s : String)
    (h : s ∈ (analyze_systems_only files).2.1) :
    ∃ ts, lookupAssoc (analyze_systems_only files).1 s = some ts := by
  have h' : s ∈ (collectSystemClasses files).2 := h
  exact Option.isSome_iff_exists.mp (fill_covers (collectSystemClasses files).2 s h'
    ((files.foldl (systemSecondPassFile (collectSystemClasses files).1) ([], [])).1))

theorem claim_C7_witness :
    ∃ ts, lookupAssoc (analyze_systems_only [exNoNsFile]).1 "Global.FooSystem" = some ts :=
  claim_C7 [exNoNsFile] "Global.FooSystem" (by decide)

/-! ## Units without a namespace declaration (C6) -/

/-- **C6.** A source unit with no detectable namespace declaration
contributes nothing in namespace mode (it is skipped entirely), while in
class mode and in system mode its symbols are assigned the default
namespace `"Global"` and still participate: they are entered into the
symbol tables (and, in system mode, into the all-systems set) under
`Global.<name>`. -/
theorem claim_C6 (pre post : List CSFile) (f : CSFile)
    (h : extractNamespace (fileContent f) = none) :
    (analyze_namespace_dependencies (pre ++ f :: post) =
      analyze_namespace_dependencies (pre ++ post)) ∧
    (∀ e ∈ collectAllClasses [f],
      e.2.1 = "Global" ∧ e.2.2 = "Global" ++ "." ++ e.1) ∧
    (∀ e ∈ (collectSystemClasses [f]).1,
      e.2.1 = "Global" ∧ e.2.2 = "Global" ++ "." ++ e.1 ∧
        e.2.2 ∈ (collectSystemClasses [f]).2) := by
  refine ⟨?_, ?_, ?_⟩
  · have hstep : nsFileStep (List.foldl nsFileStep [] pre) f =
        List.foldl nsFileStep [] pre := by
      unfold nsFileStep
      rw [h]
    unfold analyze_namespace_dependencies
    rw [List.foldl_append, List.foldl_cons, hstep, ← List.foldl_append]
  · intro e he
    have hrw : collectAllClasses [f] = classFirstPassFile [] f := rfl
    rw [hrw] at he
    unfold classFirstPassFile at he
    rw [h] at he
    simp only [Option.getD_none] at he
    refine foldl_induction
      (P := fun acc : List (String × String × String) =>
        ∀ e' ∈ acc, e'.2.1 = "Global" ∧ e'.2.2 = "Global" ++ "." ++ e'.1)
      _ _ (fun e' he' => absurd he' (List.not_mem_nil e')) ?_ e he
    intro acc p _ hP e' he'
    split at he'
    · exact hP e' he'
    · split at he'
      · split at he'
        · exact hP e' he'
        · rcases mem_setAssoc he' with h' | ⟨h1, h2⟩
          · exact hP e' h'
          · constructor
            · rw [h2]
            · rw [h2, h1]
      · exact hP e' he'
  · intro e he
    have hrw : collectSystemClasses [f] = systemFirstPassFile ([], []) f := rfl
    rw [hrw] at he ⊢
    unfold systemFirstPassFile at he ⊢
    rw [h] at he ⊢
    simp only [Option.getD_none] at he ⊢
    refine foldl_induction
      (P := fun acc : List (String × String × String) × List String =>
        ∀ e' ∈ acc.1, e'.2.1 = "Global" ∧ e'.2.2 = "Global" ++ "." ++ e'.1 ∧
          e'.2.2 ∈ acc.2)
      _ _ (fun e' he' => absurd he' (List.not_mem_nil e')) ?_ e he
    intro acc pat _ hP
    refine foldl_induction
      (P := fun acc : List (String × String × String) × List String =>
        ∀ e' ∈ acc.1, e'.2.1 = "Global" ∧ e'.2.2 = "Global" ++ "." ++ e'.1 ∧
          e'.2.2 ∈ acc.2)
      _ _ hP ?_
    intro acc' caps _ hP'
    by_cases hcond : firstCap caps ≠ "" ∧
        ¬ endswithAny (firstCap caps) ["Authoring", "Baker", "Data"] = true
    · simp only [if_pos hcond]
      intro e' he'
      rcases mem_setAssoc he' with h' | ⟨h1, h2⟩
      · obtain ⟨ha, hb, hc⟩ := hP' e' h'
        exact ⟨ha, hb, mem_insertStr_of_mem _ hc⟩
      · refine ⟨by rw [h2], by rw [h2, h1], ?_⟩
        rw [h2]
        exact mem_insertStr_self _ _
    · simp only [if_neg hcond]
      exact hP'

theorem claim_C6_witness :
    analyze_namespace_dependencies ([] ++ exNoNsFile :: []) =
      analyze_namespace_dependencies ([] ++ []) :=
  (claim_C6 [] [] exNoNsFile (by rfl)).1

/-! ## The co-location guard of class mode (C8) -/

/-- **C8.** In class mode, whenever a dependency on `otherFull` is
recorded for a class, some `all_classes` entry with that qualified name
passed the guards; in particular, if that entry's short name is among the
classes declared in the same file, then at least one pattern of the
stricter legitimate-usage subset matched a line of the source class's
isolated scope.  Mere co-presence of the target's name in the file
produces no edge. -/
theorem claim_C8 (allClasses : List (String × String × String))
    (fileShorts : List String) (fpath : String) (lines : List String)
    (ns : String) (customUsings : List String)
    (className fullClassName otherFull : String)
    (h : otherFull ∈ (processClass allClasses fileShorts fpath lines ns customUsings
      className fullClassName).1) :
    ∃ e ∈ allClasses, e.2.2 = otherFull ∧
      (pySplitDotLast e.1 ∈ fileShorts →
        has_legitimate_class_usage (extract_class_scope lines className)
          (pySplitDotLast e.1) = true) := by
  refine foldl_induction
    (P := fun acc : List String × List (String × List String) =>
      ∀ d ∈ acc.1, ∃ e ∈ allClasses, e.2.2 = d ∧
        (pySplitDotLast e.1 ∈ fileShorts →
          has_legitimate_class_usage (extract_class_scope lines className)
            (pySplitDotLast e.1) = true))
    _ _ (fun d hd => absurd hd (List.not_mem_nil d)) ?_ otherFull h
  intro acc e he hP
  split
  · exact hP
  next hne =>
    split
    · exact hP
    next hguard =>
      split
      · exact hP
      · split
        · intro d hd
          rcases List.mem_append.mp hd with h' | h'
          · exact hP d h'
          · rw [List.mem_singleton.mp h']
            refine ⟨e, he, rfl, ?_⟩
            intro hshort
            by_cases hleg : has_legitimate_class_usage
                (extract_class_scope lines className) (pySplitDotLast e.1) = true
            · exact hleg
            · exact absurd ⟨hshort, hne, by simpa using hleg⟩ hguard
        · exact hP

theorem claim_C8_witness :
    ∃ e ∈ collectAllClasses [exClassFile], e.2.2 = "N.B" ∧
      (pySplitDotLast e.1 ∈ ["A", "B"] →
        has_legitimate_class_usage (extract_class_scope exClassFile.lines "A")
          (pySplitDotLast e.1) = true) :=
  claim_C8 (collectAllClasses [exClassFile]) ["A", "B"] "b.cs" exClassFile.lines "N" []
    "A" "N.A" "N.B" (by decide)

/-! ## DOT edge labels (C5) -/

theorem pyReplaceGo_id {c : Char} {rep : List Char} :
    ∀ (fuel : Nat) (s : List Char), c ∉ s → pyReplaceGo [c] rep fuel s = s := by
  intro fuel
  induction fuel with
  | zero => intro s _; rfl
  | succ n ih =>
    intro s h
    cases s with
    | nil => rfl
    | cons d rest =>
      have hne : c ≠ d := fun hc => h (hc ▸ List.mem_cons_self d rest)
      have hcond : ¬ (([c] : List Char) ≠ [] ∧
          List.isPrefixOf [c] (d :: rest) = true) := by
        intro hcon
        have h2 := hcon.2
        simp [List.isPrefixOf] at h2
        exact hne h2
      rw [pyReplaceGo]
      rw [if_neg hcond]
      rw [ih rest (fun hm => h (List.mem_cons_of_mem d hm))]

theorem pyReplace_id {s pat rep : String} {pc : Char}
    (hp : pat.data = [pc]) (h : pc ∉ s.data) : pyReplace s pat rep = s := by
  unfold pyReplace pyReplaceL
  rw [hp, pyReplaceGo_id s.data.length s.data h]

theorem escapeLabel_id {s : String} (h1 : '"' ∉ s.data) (h2 : '\n' ∉ s.data) :
    escapeLabel s = s := by
  unfold escapeLabel
  rw [pyReplace_id rfl h1, pyReplace_id rfl h2]

theorem mem_data_append {c : Char} {a b : String} :
    c ∈ (a ++ b).data ↔ c ∈ a.data ∨ c ∈ b.data := by
  rw [String.data_append]
  exact List.mem_append

theorem append_ne_empty_right {a b : String} (h : b ≠ "") : a ++ b ≠ "" := by
  intro hcon
  have hdata : a.data ++ b.data = ([] : List Char) := by
    rw [← String.data_append, hcon]
  have h2 := (List.append_eq_nil.mp hdata).2
  exact h (String.ext h2)

theorem edgeLabelRaw_le_two {rs : List String} (h : rs.length ≤ 2) :
    edgeLabelRaw rs = String.intercalate "\\n" rs := by
  unfold edgeLabelRaw
  rw [if_pos h, List.take_of_length_le h]

theorem edgeLabelRaw_three (r1 r2 r3 : String) :
    edgeLabelRaw [r1, r2, r3] = r1 ++ "\\n...and 2 more" := by
  unfold edgeLabelRaw
  rw [if_neg (by simp)]
  have h : ("\\n...and " ++ (toString (2 : Nat) ++ " more") : String) =
      "\\n...and 2 more" := by decide
  calc r1 ++ "\\n...and " ++ toString (2 : Nat) ++ " more"
      = r1 ++ ("\\n...and " ++ (toString (2 : Nat) ++ " more")) := by
        rw [String.append_assoc, String.append_assoc]
    _ = r1 ++ "\\n...and 2 more" := by rw [h]

theorem edgeLabelOf_red {dd : List (String × List (String × List String))}
    {cd : List (String × String)} {f t : String}
    {det : List (String × List String)} {pr : String × List String}
    (hcirc : (f, t) ∈ cd) (hdd : lookupAssoc dd f = some det)
    (hfind : det.find? (fun p => p.1 = t) = some pr) :
    edgeLabelOf (some dd) cd f t = escapeLabel (edgeLabelRaw pr.2) := by
  unfold edgeLabelOf edgeColorOf
  rw [if_pos hcirc, if_pos rfl]
  have hddne : dd.isEmpty = false := by
    cases dd
    · simp [lookupAssoc] at hdd
    · rfl
  show (if dd.isEmpty = true then ""
        else match lookupAssoc dd f with
          | some details => findEdgeLabel details t
          | none => "") = escapeLabel (edgeLabelRaw pr.2)
  rw [if_neg (by simp [hddne]), hdd]
  show findEdgeLabel det t = escapeLabel (edgeLabelRaw pr.2)
  unfold findEdgeLabel
  rw [hfind]

theorem color_red_chunk (v : String) :
    v ++ "\" [color=" ++ "red" ++ ", label=\"" = v ++ "\" [color=red, label=\"" := by
  rw [String.append_assoc, String.append_assoc]
  congr 1

theorem color_green_chunk (v : String) :
    v ++ "\" [color=" ++ "darkgreen" ++ "];\n" = v ++ "\" [color=darkgreen];\n" := by
  rw [String.append_assoc, String.append_assoc]
  congr 1

theorem edgeLine_red {dd : List (String × List (String × List String))}
    {cd : List (String × String)} {f t : String}
    {det : List (String × List String)} {pr : String × List String}
    (hcirc : (f, t) ∈ cd) (hdd : lookupAssoc dd f = some det)
    (hfind : det.find? (fun p => p.1 = t) = some pr)
    (hlab : escapeLabel (edgeLabelRaw pr.2) ≠ "") :
    edgeLine (some dd) cd f t =
      "  \"" ++ pyReplace f "\"" "\\\"" ++ "\" -> \"" ++ pyReplace t "\"" "\\\"" ++
        "\" [color=red, label=\"" ++ escapeLabel (edgeLabelRaw pr.2) ++ "\"];\n" := by
  unfold edgeLine
  rw [edgeLabelOf_red hcirc hdd hfind, if_pos hlab]
  unfold edgeColorOf
  rw [if_pos hcirc, color_red_chunk]

theorem edgeLine_green {cd : List (String × String)} {f t : String}
    (h : (f, t) ∉ cd)
    (dd' : Option (List (String × List (String × List String)))) :
    edgeLine dd' cd f t =
      "  \"" ++ pyReplace f "\"" "\\\"" ++ "\" -> \"" ++ pyReplace t "\"" "\\\"" ++
        "\" [color=darkgreen];\n" := by
  have hcol : edgeColorOf cd f t = "darkgreen" := by
    unfold edgeColorOf
    rw [if_neg h]
  have hlab : edgeLabelOf dd' cd f t = "" := by
    unfold edgeLabelOf
    rw [hcol, if_neg (by decide)]
  unfold edgeLine
  rw [hlab, hcol, if_neg (by simp), color_green_chunk]

/-- **C5.** In the rendered DOT output, only circular edges carry a label:
for a circular edge whose deduplicated reason list has exactly one entry
(free of quote and newline characters) the label is that reason verbatim;
with at most two entries the entries are joined with the escaped-newline
text `\n`; with exactly three entries the label is the first reason
followed by `\n...and 2 more`; and a non-circular edge is emitted with no
label attribute at all. -/
theorem claim_C5 (dd : List (String × List (String × List String)))
    (cd : List (String × String)) (f t : String) :
    (∀ (det : List (String × List String)) (pr : String × List String),
      (f, t) ∈ cd → lookupAssoc dd f = some det →
      det.find? (fun p => p.1 = t) = some pr →
      ((∀ r : String, pr.2 = [r] → '"' ∉ r.data → '\n' ∉ r.data → r ≠ "" →
          edgeLine (some dd) cd f t =
            "  \"" ++ pyReplace f "\"" "\\\"" ++ "\" -> \"" ++
              pyReplace t "\"" "\\\"" ++ "\" [color=red, label=\"" ++ r ++
              "\"];\n") ∧
       (pr.2.length ≤ 2 → '"' ∉ (String.intercalate "\\n" pr.2).data →
          '\n' ∉ (String.intercalate "\\n" pr.2).data →
          String.intercalate "\\n" pr.2 ≠ "" →
          edgeLine (some dd) cd f t =
            "  \"" ++ pyReplace f "\"" "\\\"" ++ "\" -> \"" ++
              pyReplace t "\"" "\\\"" ++ "\" [color=red, label=\"" ++
              String.intercalate "\\n" pr.2 ++ "\"];\n") ∧
       (∀ r1 r2 r3 : String, pr.2 = [r1, r2, r3] → '"' ∉ r1.data →
          '\n' ∉ r1.data →
          edgeLine (some dd) cd f t =
            "  \"" ++ pyReplace f "\"" "\\\"" ++ "\" -> \"" ++
              pyReplace t "\"" "\\\"" ++ "\" [color=red, label=\"" ++
              (r1 ++ "\\n...and 2 more") ++ "\"];\n"))) ∧
    ((f, t) ∉ cd →
      ∀ dd' : Option (List (String × List (String × List String))),
        edgeLine dd' cd f t =
          "  \"" ++ pyReplace f "\"" "\\\"" ++ "\" -> \"" ++
            pyReplace t "\"" "\\\"" ++ "\" [color=darkgreen];\n") := by
  constructor
  · intro det pr hcirc hdd hfind
    refine ⟨?_, ?_, ?_⟩
    · intro r hr h1 h2 h3
      have hlab : escapeLabel (edgeLabelRaw pr.2) = r := by
        rw [hr, edgeLabelRaw_le_two (by simp)]
        have hint : String.intercalate "\\n" [r] = r := rfl
        rw [hint]
        exact escapeLabel_id h1 h2
      rw [edgeLine_red hcirc hdd hfind (by rw [hlab]; exact h3), hlab]
    · intro hlen h1 h2 h3
      have hlab : escapeLabel (edgeLabelRaw pr.2) = String.intercalate "\\n" pr.2 := by
        rw [edgeLabelRaw_le_two hlen]
        exact escapeLabel_id h1 h2
      rw [edgeLine_red hcirc hdd hfind (by rw [hlab]; exact h3), hlab]
    · intro r1 r2 r3 hr h1 h2
      have hlab : escapeLabel (edgeLabelRaw pr.2) = r1 ++ "\\n...and 2 more" := by
        rw [hr, edgeLabelRaw_three]
        refine escapeLabel_id ?_ ?_
        · intro hm
          rcases mem_data_append.mp hm with hm | hm
          · exact h1 hm
          · exact absurd hm (by decide)
        · intro hm
          rcases mem_data_append.mp hm with hm | hm
          · exact h2 hm
          · exact absurd hm (by decide)
      have hne : (r1 ++ "\\n...and 2 more" : String) ≠ "" :=
        append_ne_empty_right (by decide)
      rw [edgeLine_red hcirc hdd hfind (by rw [hlab]; exact hne), hlab]
  · intro h dd'
    exact edgeLine_green h dd'

theorem claim_C5_witness :
    (edgeLine (some exDetails) exCircular "X" "Y" =
      "  \"" ++ pyReplace "X" "\"" "\\\"" ++ "\" -> \"" ++
        pyReplace "Y" "\"" "\\\"" ++ "\" [color=red, label=\"" ++ "alpha" ++
        "\"];\n") ∧
    (edgeLine (some exDetails) exCircular "X" "Z" =
      "  \"" ++ pyReplace "X" "\"" "\\\"" ++ "\" -> \"" ++
        pyReplace "Z" "\"" "\\\"" ++ "\" [color=red, label=\"" ++
        ("p1" ++ "\\n...and 2 more") ++ "\"];\n") ∧
    (edgeLine (some exDetails) exCircular "W" "Y" =
      "  \"" ++ pyReplace "W" "\"" "\\\"" ++ "\" -> \"" ++
        pyReplace "Y" "\"" "\\\"" ++ "\" [color=darkgreen];\n") :=
  ⟨(((claim_C5 exDetails exCircular "X" "Y").1 [("Y", ["alpha"]), ("Z", ["p1", "p2", "p3"])]
      ("Y", ["alpha"]) (by decide) (by decide) (by decide)).1 "alpha" rfl (by decide)
      (by decide) (by decide)),
   (((claim_C5 exDetails exCircular "X" "Z").1 [("Y", ["alpha"]), ("Z", ["p1", "p2", "p3"])]
      ("Z", ["p1", "p2", "p3"]) (by decide) (by decide) (by decide)).2.2 "p1" "p2" "p3" rfl
      (by decide) (by decide)),
   (claim_C5 exDetails exCircular "W" "Y").2 (by decide) (some exDetails)⟩

/-! ## Namespace-mode keys (C10) -/

theorem lookupAssoc_cons {V : Type} (k' : String) (v : V) (t : List (String × V))
    (k : String) :
    lookupAssoc ((k', v) :: t) k = if k' = k then some v else lookupAssoc t k := by
  by_cases h : k' = k
  · simp [lookupAssoc, List.find?, h]
  · simp [lookupAssoc, List.find?, h]

theorem lookupAssoc_isSome_updAssoc {V : Type} {k0 : String} {d : V} {f : V → V}
    {l : List (String × V)} {k : String} :
    (lookupAssoc (updAssoc k0 d f l) k).isSome = true ↔
      (k = k0 ∨ (lookupAssoc l k).isSome = true) := by
  induction l with
  | nil =>
    show (lookupAssoc [(k0, f d)] k).isSome = true ↔ _
    rw [lookupAssoc_cons]
    by_cases h : k0 = k
    · rw [if_pos h]
      exact ⟨fun _ => Or.inl h.symm, fun _ => rfl⟩
    · rw [if_neg h]
      constructor
      · exact Or.inr
      · rintro (hk | hx)
        · exact absurd hk.symm h
        · exact hx
  | cons a t ih =>
    obtain ⟨k', v⟩ := a
    show (lookupAssoc (if k' = k0 then (k', f v) :: t
      else (k', v) :: updAssoc k0 d f t) k).isSome = true ↔ _
    by_cases h1 : k' = k0
    · rw [if_pos h1, lookupAssoc_cons, lookupAssoc_cons]
      by_cases h2 : k' = k
      · rw [if_pos h2, if_pos h2]
        exact ⟨fun _ => Or.inl (h2.symm.trans h1), fun _ => rfl⟩
      · rw [if_neg h2, if_neg h2]
        constructor
        · exact Or.inr
        · rintro (hk | hx)
          · exact absurd (h1.trans hk.symm) h2
          · exact hx
    · rw [if_neg h1, lookupAssoc_cons, lookupAssoc_cons]
      by_cases h2 : k' = k
      · rw [if_pos h2, if_pos h2]
        exact ⟨fun _ => Or.inr rfl, fun _ => rfl⟩
      · rw [if_neg h2, if_neg h2]
        exact ih

theorem updAssoc_ne_nil {V : Type} (k0 : String) (d : V) (f : V → V)
    (l : List (String × V)) : updAssoc k0 d f l ≠ [] := by
  cases l with
  | nil => simp [updAssoc]
  | cons a t =>
    obtain ⟨k', v⟩ := a
    by_cases h : k' = k0 <;> simp [updAssoc, h]

theorem nsLineStep_keys {ns fpath : String}
    {acc : List (String × List (String × List String))} {p : Nat × String}
    {k : String} :
    (lookupAssoc (nsLineStep ns fpath acc p) k).isSome = true ↔
      ((lookupAssoc acc k).isSome = true ∨
        (k = ns ∧ ∃ t, matchUsing p.2 = some t ∧
          ¬ startswithAny t frameworkRoots = true ∧ t ≠ ns)) := by
  unfold nsLineStep
  cases hm : matchUsing p.2 with
  | none =>
    constructor
    · exact Or.inl
    · rintro (hx | ⟨_, t, hmt, _⟩)
      · exact hx
      · exact Option.noConfusion hmt
  | some target =>
    show (lookupAssoc
        (if ¬ startswithAny target frameworkRoots = true ∧ target ≠ ns then
          addUsing acc ns target (fpath ++ ":" ++ toString p.1)
        else acc) k).isSome = true ↔ _
    by_cases hc : ¬ startswithAny target frameworkRoots = true ∧ target ≠ ns
    · rw [if_pos hc]
      unfold addUsing
      rw [lookupAssoc_isSome_updAssoc]
      constructor
      · rintro (hk | hx)
        · exact Or.inr ⟨hk, target, rfl, hc⟩
        · exact Or.inl hx
      · rintro (hx | ⟨hk, _, _, _⟩)
        · exact Or.inr hx
        · exact Or.inl hk
    · rw [if_neg hc]
      constructor
      · exact Or.inl
      · rintro (hx | ⟨_, t, hmt, hct⟩)
        · exact hx
        · obtain rfl : t = target := (Option.some.inj hmt).symm
          exact absurd hct hc

theorem nsLineFold_keys (ns fpath : String) (ps : List (Nat × String)) :
    ∀ (acc : List (String × List (String × List String))) (k : String),
      (lookupAssoc (ps.foldl (nsLineStep ns fpath) acc) k).isSome = true ↔
        ((lookupAssoc acc k).isSome = true ∨
          (k = ns ∧ ∃ p ∈ ps, ∃ t, matchUsing p.2 = some t ∧
            ¬ startswithAny t frameworkRoots = true ∧ t ≠ ns)) := by
  induction ps with
  | nil =>
    intro acc k
    constructor
    · exact Or.inl
    · rintro (hx | ⟨_, p, hp, _⟩)
      · exact hx
      · exact absurd hp (List.not_mem_nil p)
  | cons a l ih =>
    intro acc k
    rw [List.foldl_cons, ih, nsLineStep_keys]
    constructor
    · rintro ((hx | ⟨hk, t, hmt, hct⟩) | ⟨hk, p, hp, t, hmt, hct⟩)
      · exact Or.inl hx
      · exact Or.inr ⟨hk, a, List.mem_cons_self a l, t, hmt, hct⟩
      · exact Or.inr ⟨hk, p, List.mem_cons_of_mem a hp, t, hmt, hct⟩
    · rintro (hx | ⟨hk, p, hp, t, hmt, hct⟩)
      · exact Or.inl (Or.inl hx)
      · rcases List.mem_cons.mp hp with rfl | hp'
        · exact Or.inl (Or.inr ⟨hk, t, hmt, hct⟩)
        · exact Or.inr ⟨hk, p, hp', t, hmt, hct⟩

theorem exists_mem_enumFrom {α : Type} {l : List α} {n : Nat} {Q : α → Prop} :
    (∃ p ∈ List.enumFrom n l, Q p.2) ↔ ∃ x ∈ l, Q x := by
  constructor
  · rintro ⟨p, hp, hq⟩
    refine ⟨p.2, ?_, hq⟩
    have hmem : p.2 ∈ (List.enumFrom n l).map Prod.snd := List.mem_map_of_mem _ hp
    rwa [List.enumFrom_map_snd] at hmem
  · rintro ⟨x, hx, hq⟩
    rw [← List.enumFrom_map_snd n l] at hx
    obtain ⟨p, hp, hpx⟩ := List.mem_map.mp hx
    exact ⟨p, hp, by rw [hpx]; exact hq⟩

theorem nsFileStep_keys {acc : List (String × List (String × List String))}
    {f : CSFile} {k : String} :
    (lookupAssoc (nsFileStep acc f) k).isSome = true ↔
      ((lookupAssoc acc k).isSome = true ∨
        (extractNamespace (fileContent f) = some k ∧
          ∃ line ∈ f.lines, ∃ t, matchUsing line = some t ∧
            ¬ startswithAny t frameworkRoots = true ∧ t ≠ k)) := by
  unfold nsFileStep
  cases hns : extractNamespace (fileContent f) with
  | none =>
    constructor
    · exact Or.inl
    · rintro (hx | ⟨heq, _⟩)
      · exact hx
      · exact Option.noConfusion heq
  | some ns =>
    rw [nsLineFold_keys]
    constructor
    · rintro (hx | ⟨hk, hrest⟩)
      · exact Or.inl hx
      · subst hk
        exact Or.inr ⟨rfl, exists_mem_enumFrom.mp hrest⟩
    · rintro (hx | ⟨heq, hrest⟩)
      · exact Or.inl hx
      · obtain rfl : ns = k := Option.some.inj heq
        exact Or.inr ⟨rfl, exists_mem_enumFrom.mpr hrest⟩

theorem nsFilesFold_keys (files : List CSFile) :
    ∀ (acc : List (String × List (String × List String))) (k : String),
      (lookupAssoc (files.foldl nsFileStep acc) k).isSome = true ↔
        ((lookupAssoc acc k).isSome = true ∨
          ∃ f ∈ files, extractNamespace (fileContent f) = some k ∧
            ∃ line ∈ f.lines, ∃ t, matchUsing line = some t ∧
              ¬ startswithAny t frameworkRoots = true ∧ t ≠ k) := by
  induction files with
  | nil =>
    intro acc k
    constructor
    · exact Or.inl
    · rintro (hx | ⟨f, hf, _⟩)
      · exact hx
      · exact absurd hf (List.not_mem_nil f)
  | cons a l ih =>
    intro acc k
    rw [List.foldl_cons, ih, nsFileStep_keys]
    constructor
    · rintro ((hx | hA) | ⟨f, hf, hQ⟩)
      · exact Or.inl hx
      · exact Or.inr ⟨a, List.mem_cons_self a l, hA⟩
      · exact Or.inr ⟨f, List.mem_cons_of_mem a hf, hQ⟩
    · rintro (hx | ⟨f, hf, hQ⟩)
      · exact Or.inl (Or.inl hx)
      · rcases List.mem_cons.mp hf with rfl | hf'
        · exact Or.inl (Or.inr hQ)
        · exact Or.inr ⟨f, hf', hQ⟩

theorem nsUsings_values_ne_nil (files : List CSFile) :
    ∀ p ∈ files.foldl nsFileStep [], p.2 ≠ [] := by
  refine foldl_induction
    (P := fun acc : List (String × List (String × List String)) =>
      ∀ p ∈ acc, p.2 ≠ [])
    _ _ (fun p hp => absurd hp (List.not_mem_nil p)) ?_
  intro acc f _ H
  unfold nsFileStep
  cases extractNamespace (fileContent f) with
  | none => exact H
  | some ns =>
    refine foldl_induction
      (P := fun acc : List (String × List (String × List String)) =>
        ∀ p ∈ acc, p.2 ≠ [])
      _ _ H ?_
    intro acc' p _ H'
    unfold nsLineStep
    cases hm : matchUsing p.2 with
    | none => exact H'
    | some target =>
      show ∀ q ∈ (if ¬ startswithAny target frameworkRoots = true ∧ target ≠ ns then
          addUsing acc' ns target (f.path ++ ":" ++ toString p.1)
        else acc'), q.2 ≠ []
      split
      · intro q hq
        rcases mem_updAssoc hq with hq' | ⟨_, hv⟩
        · exact H' q hq'
        · rcases hv with hv | ⟨v, _, hv⟩
          · rw [hv]; exact updAssoc_ne_nil _ _ _ _
          · rw [hv]; exact updAssoc_ne_nil _ _ _ _
      · exact H'

theorem lookupAssoc_map_isSome {V W : Type} (g : String × V → W)
    (l : List (String × V)) (k : String) :
    (lookupAssoc (l.map (fun p => (p.1, g p))) k).isSome =
      (lookupAssoc l k).isSome := by
  unfold lookupAssoc
  rw [List.find?_map]
  have hpred : ((fun q : String × W => decide (q.1 = k)) ∘
      (fun p : String × V => (p.1, g p))) =
      (fun p : String × V => decide (p.1 = k)) := rfl
  rw [hpred]
  cases l.find? (fun p : String × V => decide (p.1 = k)) <;> rfl

/-- **C10.** In namespace mode, a namespace appears as a key of the
returned dependencies mapping if and only if some unit declaring it
contains at least one qualifying using statement (one whose target is not
a framework namespace and is not the namespace itself); a namespace with
no such using is omitted entirely, so namespace mode produces no isolated
source nodes. -/
theorem claim_C10 (files : List CSFile) (ns : String) :
    (∃ ts, lookupAssoc (analyze_namespace_dependencies files).1 ns = some ts) ↔
      ∃ f ∈ files, extractNamespace (fileContent f) = some ns ∧
        ∃ line ∈ f.lines, ∃ t, matchUsing line = some t ∧
          ¬ startswithAny t frameworkRoots = true ∧ t ≠ ns := by
  have hfilter : (files.foldl nsFileStep []).filter (fun p => ¬ p.2.isEmpty) =
      files.foldl nsFileStep [] := by
    apply List.filter_eq_self.mpr
    intro p hp
    have hne := nsUsings_values_ne_nil files p hp
    simp [List.isEmpty_iff, hne]
  have hdef : (analyze_namespace_dependencies files).1 =
      ((files.foldl nsFileStep []).filter (fun p => ¬ p.2.isEmpty)).map
        (fun p => (p.1, p.2.map (·.1))) := rfl
  constructor
  · rintro ⟨ts, hts⟩
    have h1 : (lookupAssoc (analyze_namespace_dependencies files).1 ns).isSome = true := by
      rw [hts]; rfl
    rw [hdef, lookupAssoc_map_isSome, hfilter] at h1
    rcases (nsFilesFold_keys files [] ns).mp h1 with hx | h3
    · simp [lookupAssoc] at hx
    · exact h3
  · intro h3
    have h2 : (lookupAssoc (files.foldl nsFileStep []) ns).isSome = true :=
      (nsFilesFold_keys files [] ns).mpr (Or.inr h3)
    have h1 : (lookupAssoc (analyze_namespace_dependencies files).1 ns).isSome = true := by
      rw [hdef, lookupAssoc_map_isSome, hfilter]
      exact h2
    exact Option.isSome_iff_exists.mp h1

end DepMon
